import Mathlib

/-!
Shallow embedding of `CTD_NetCDF_cruise_to_stations.py`, a script that splits a
multi-station NetCDF CTD archive into one file per station.

Modelling conventions:
* NetCDF attribute dictionaries are ordered association lists
  (`Attrs := List (String × AttrVal)`), with Python `dict` semantics:
  update-in-place on existing keys, append on new keys, delete-first on `del`.
* Numeric values (pressures, `valid_min`/`valid_max`) are modelled as `ℚ`;
  the Python float literal `0.001` is the exact rational `1/1000` here.
* Fallible code (`KeyError`, `TypeError`, `sys.exit`) is modelled with
  `Except String`.
* Python built-ins used by the script (`str.split` on a one-character
  separator, `str.replace(pat, '')`, `list.index`, `min`/`max`, slicing
  `l[a:b]`) are embedded below and kept faithful to CPython behaviour on the
  inputs the script can produce.
-/

set_option autoImplicit false

namespace CTD

/-- Python `s.split(sep)` for a one-character separator: splits on every
occurrence and keeps empty tokens (`"a  b".split(' ') = ['a', '', 'b']`,
`''.split(' ') = ['']`). -/
def pySplit (sep : Char) : List Char → List (List Char)
  | [] => [[]]
  | c :: cs =>
    if c = sep then [] :: pySplit sep cs
    else
      match pySplit sep cs with
      | t :: ts => (c :: t) :: ts
      | [] => [[c]]

theorem pySplit_ne_nil (sep : Char) (l : List Char) : pySplit sep l ≠ [] := by
  cases l with
  | nil => simp [pySplit]
  | cons c cs =>
    rw [pySplit]
    by_cases h : c = sep
    · simp [h]
    · simp only [if_neg h]
      rcases hs : pySplit sep cs with _ | ⟨t, ts⟩ <;> simp

/-- Worker for `removeOcc`, structurally recursive on an explicit character
budget so that the kernel can evaluate it; the budget never runs out when it
starts at the list's length, because every step consumes at least one
character. -/
def removeOccGo (pat : List Char) : ℕ → List Char → List Char
  | _, [] => []
  | 0, l => l
  | fuel + 1, c :: cs =>
    if pat ≠ [] ∧ pat.isPrefixOf (c :: cs) then
      removeOccGo pat fuel (List.drop (pat.length - 1) cs)
    else
      c :: removeOccGo pat fuel cs

/-- Python `s.replace(pat, '')`: delete every occurrence of `pat`, scanning
left to right, non-overlapping.  (For the empty pattern CPython's
`s.replace('', '')` returns `s` unchanged, which the `else` branch
reproduces, since an empty pattern never satisfies the guard.) -/
def removeOcc (pat l : List Char) : List Char := removeOccGo pat l.length l

theorem removeOccGo_congr (pat : List Char) (fuel : ℕ) :
    ∀ (fuel' : ℕ) (l : List Char), l.length ≤ fuel → l.length ≤ fuel' →
      removeOccGo pat fuel l = removeOccGo pat fuel' l := by
  induction fuel with
  | zero =>
    intro fuel' l h _
    have : l = [] := List.eq_nil_of_length_eq_zero (Nat.le_zero.mp h)
    subst this
    cases fuel' <;> rfl
  | succ fuel ih =>
    intro fuel' l h h'
    cases l with
    | nil => cases fuel' <;> rfl
    | cons c cs =>
      cases fuel' with
      | zero => simp at h'
      | succ f' =>
        rw [removeOccGo, removeOccGo]
        by_cases hcond : (pat ≠ [] ∧ pat.isPrefixOf (c :: cs))
        · rw [if_pos hcond, if_pos hcond]
          refine ih f' _ ?_ ?_ <;>
            · simp only [List.length_drop]
              simp only [List.length_cons] at h h'
              omega
        · rw [if_neg hcond, if_neg hcond]
          refine congrArg (List.cons c) (ih f' cs ?_ ?_) <;>
            · simp only [List.length_cons] at h h'
              omega

theorem removeOcc_cons (pat : List Char) (c : Char) (cs : List Char) :
    removeOcc pat (c :: cs) =
      if pat ≠ [] ∧ pat.isPrefixOf (c :: cs) then
        removeOcc pat (List.drop (pat.length - 1) cs)
      else
        c :: removeOcc pat cs := by
  show removeOccGo pat (cs.length + 1) (c :: cs) = _
  rw [removeOccGo]
  by_cases hcond : (pat ≠ [] ∧ pat.isPrefixOf (c :: cs))
  · rw [if_pos hcond, if_pos hcond]
    exact removeOccGo_congr pat cs.length _ _
      (by simp only [List.length_drop]; omega) (le_refl _)
  · rw [if_neg hcond, if_neg hcond]
    rfl

/-- Python slice `l[a:b]` for non-negative bounds: the elements with indices
`a ≤ i < b`, empty when `b ≤ a`, clamped to the list length. -/
def pySlice {α : Type} (l : List α) (a b : ℕ) : List α := (l.take b).drop a

/-- Python `min(row)` over a nonempty list (left fold, exactly CPython's
iteration order).  `rowMin [] = 0` is an unreachable totalisation: CPython's
`min([])` raises `ValueError` and the script never reaches it on the inputs
the claims quantify over. -/
def rowMin : List ℚ → ℚ
  | [] => 0
  | x :: xs => xs.foldl min x

/-- Python `max(row)`, same conventions as `rowMin`. -/
def rowMax : List ℚ → ℚ
  | [] => 0
  | x :: xs => xs.foldl max x

/-- Contiguous-substring test on character lists: `true` iff `pat` occurs as a
contiguous run inside `l` (the empty pattern occurs everywhere, as in
Python). -/
def subOccurs (pat : List Char) : List Char → Bool
  | [] => pat.isEmpty
  | c :: cs => pat.isPrefixOf (c :: cs) || subOccurs pat cs

/-- Python `pat in s` for strings: substring containment. -/
def pyIn (pat s : String) : Bool := subOccurs pat.data s.data

/-- `pySplit` lifted to `String`. -/
def pySplitStr (sep : Char) (s : String) : List String :=
  (pySplit sep s.data).map String.mk

/-- `removeOcc` lifted to `String`: Python `s.replace(pat, '')`. -/
def removeOccStr (pat s : String) : String :=
  String.mk (removeOcc pat.data s.data)

/-- Python `s.replace(old, new)` where `old` and `new` are single
characters: character-wise substitution. -/
def pyReplaceChar (old new : Char) (s : String) : String :=
  String.mk (s.data.map (fun c => if c = old then new else c))

/-- Python `s.split(sep)[0]`: the prefix of `s` before the first `sep`. -/
def pyHeadToken (sep : Char) (s : String) : String :=
  (pySplitStr sep s).headD ""

theorem foldl_min_le (xs : List ℚ) (x : ℚ) :
    xs.foldl min x ≤ x ∧ ∀ y ∈ xs, xs.foldl min x ≤ y := by
  induction xs generalizing x with
  | nil => simp
  | cons z zs ih =>
    refine ⟨le_trans (ih (min x z)).1 (min_le_left _ _), ?_⟩
    intro y hy
    rcases List.mem_cons.mp hy with rfl | hy
    · exact le_trans (ih (min x y)).1 (min_le_right _ _)
    · exact (ih (min x z)).2 y hy

theorem foldl_min_mem (xs : List ℚ) (x : ℚ) :
    xs.foldl min x = x ∨ xs.foldl min x ∈ xs := by
  induction xs generalizing x with
  | nil => simp
  | cons z zs ih =>
    simp only [List.foldl_cons]
    rcases ih (min x z) with h | h
    · rcases min_cases x z with ⟨hm, _⟩ | ⟨hm, _⟩
      · exact Or.inl (by rw [h, hm])
      · exact Or.inr (by rw [h, hm]; exact List.mem_cons_self z zs)
    · exact Or.inr (List.mem_cons_of_mem _ h)

theorem foldl_max_le (xs : List ℚ) (x : ℚ) :
    x ≤ xs.foldl max x ∧ ∀ y ∈ xs, y ≤ xs.foldl max x := by
  induction xs generalizing x with
  | nil => simp
  | cons z zs ih =>
    refine ⟨le_trans (le_max_left _ _) (ih (max x z)).1, ?_⟩
    intro y hy
    rcases List.mem_cons.mp hy with rfl | hy
    · exact le_trans (le_max_right _ _) (ih (max x y)).1
    · exact (ih (max x z)).2 y hy

theorem foldl_max_mem (xs : List ℚ) (x : ℚ) :
    xs.foldl max x = x ∨ xs.foldl max x ∈ xs := by
  induction xs generalizing x with
  | nil => simp
  | cons z zs ih =>
    simp only [List.foldl_cons]
    rcases ih (max x z) with h | h
    · rcases max_cases x z with ⟨hm, _⟩ | ⟨hm, _⟩
      · exact Or.inl (by rw [h, hm])
      · exact Or.inr (by rw [h, hm]; exact List.mem_cons_self z zs)
    · exact Or.inr (List.mem_cons_of_mem _ h)

theorem rowMin_mem (l : List ℚ) (h : l ≠ []) : rowMin l ∈ l := by
  cases l with
  | nil => exact absurd rfl h
  | cons x xs =>
    show xs.foldl min x ∈ x :: xs
    rcases foldl_min_mem xs x with h' | h'
    · rw [h']; exact List.mem_cons_self x xs
    · exact List.mem_cons_of_mem _ h'

theorem rowMin_le (l : List ℚ) (y : ℚ) (hy : y ∈ l) : rowMin l ≤ y := by
  cases l with
  | nil => cases hy
  | cons x xs =>
    rcases List.mem_cons.mp hy with rfl | hy
    · exact (foldl_min_le xs y).1
    · exact (foldl_min_le xs x).2 y hy

theorem rowMax_mem (l : List ℚ) (h : l ≠ []) : rowMax l ∈ l := by
  cases l with
  | nil => exact absurd rfl h
  | cons x xs =>
    show xs.foldl max x ∈ x :: xs
    rcases foldl_max_mem xs x with h' | h'
    · rw [h']; exact List.mem_cons_self x xs
    · exact List.mem_cons_of_mem _ h'

theorem rowMax_le (l : List ℚ) (y : ℚ) (hy : y ∈ l) : y ≤ rowMax l := by
  cases l with
  | nil => cases hy
  | cons x xs =>
    rcases List.mem_cons.mp hy with rfl | hy
    · exact (foldl_max_le xs y).1
    · exact (foldl_max_le xs x).2 y hy

/-- A NetCDF attribute value as the script manipulates them: a string, a
number (Python `int`/`float`, idealised as `ℚ`), or an array of strings (the
rewritten `flag_values`). -/
inductive AttrVal where
  | str : String → AttrVal
  | num : ℚ → AttrVal
  | strArr : List String → AttrVal
deriving DecidableEq

/-- How an `AttrVal` renders inside a Python f-string (`str()`): a string
renders as itself, which is the only case the claims exercise. -/
def AttrVal.render : AttrVal → String
  | .str s => s
  | .num q => toString q.num ++ (if q.den = 1 then "" else "/" ++ toString q.den)
  | .strArr l => toString l

/-- An attribute dictionary: an insertion-ordered association list, the
shallow embedding of a Python `dict` (as produced by `xarray` `.attrs`). -/
abbrev Attrs := List (String × AttrVal)

/-- Dictionary lookup, `d[k]` (first matching key). -/
def getAttr : Attrs → String → Option AttrVal
  | [], _ => none
  | p :: ps, k => if p.1 = k then some p.2 else getAttr ps k

/-- Dictionary assignment `d[k] = v`: update in place if the key exists,
append otherwise (Python `dict` insertion-order semantics). -/
def setAttr : Attrs → String → AttrVal → Attrs
  | [], k, v => [(k, v)]
  | p :: ps, k, v => if p.1 = k then (k, v) :: ps else p :: setAttr ps k v

/-- Dictionary deletion of the first entry with key `k` (the script only
deletes keys it knows to be present; the `KeyError` on a missing key is
raised by `delReq` below). -/
def delAttr : Attrs → String → Attrs
  | [], _ => []
  | p :: ps, k => if p.1 = k then ps else p :: delAttr ps k

/-- Python `d[k]` raising `KeyError` when absent. -/
def getReq (d : Attrs) (k : String) : Except String AttrVal :=
  match getAttr d k with
  | some v => .ok v
  | none => .error ("KeyError: " ++ k)

/-- Python `d[k]` where the value is then used as a `str` operand
(`+` concatenation, `.split`, `.replace`): `TypeError` on a non-string. -/
def strReq (d : Attrs) (k : String) : Except String String :=
  match getAttr d k with
  | some (.str s) => .ok s
  | some _ => .error ("TypeError: " ++ k)
  | none => .error ("KeyError: " ++ k)

/-- Python `del d[k]`, raising `KeyError` when absent. -/
def delReq (d : Attrs) (k : String) : Except String Attrs :=
  match getAttr d k with
  | some _ => .ok (delAttr d k)
  | none => .error ("KeyError: " ++ k)

theorem getAttr_setAttr_self (d : Attrs) (k : String) (v : AttrVal) :
    getAttr (setAttr d k v) k = some v := by
  induction d with
  | nil => simp [setAttr, getAttr]
  | cons p ps ih =>
    by_cases h : p.1 = k
    · simp [setAttr, getAttr, h]
    · simp [setAttr, getAttr, h, ih]

theorem getAttr_setAttr_ne (d : Attrs) (k k' : String) (v : AttrVal)
    (h : k' ≠ k) : getAttr (setAttr d k v) k' = getAttr d k' := by
  have h2 : ¬ (k = k') := fun hh => h hh.symm
  induction d with
  | nil => simp [setAttr, getAttr, h2]
  | cons p ps ih =>
    by_cases hp : p.1 = k
    · have h3 : ¬ (p.1 = k') := by rw [hp]; exact h2
      simp [setAttr, getAttr, hp, h2, h3]
    · by_cases hp' : p.1 = k'
      · simp [setAttr, getAttr, hp, hp', h, h2]
      · simp [setAttr, getAttr, hp, hp', ih]

theorem getAttr_delAttr_ne (d : Attrs) (k k' : String)
    (h : k' ≠ k) : getAttr (delAttr d k) k' = getAttr d k' := by
  have h2 : ¬ (k = k') := fun hh => h hh.symm
  induction d with
  | nil => simp [delAttr]
  | cons p ps ih =>
    by_cases hp : p.1 = k
    · have h3 : ¬ (p.1 = k') := by rw [hp]; exact h2
      simp [delAttr, getAttr, hp, h3, h2]
    · by_cases hp' : p.1 = k'
      · simp [delAttr, getAttr, hp, hp', h, h2]
      · simp [delAttr, getAttr, hp, hp', ih]

theorem getAttr_eq_none_of_not_mem (d : Attrs) (k : String)
    (h : k ∉ d.map Prod.fst) : getAttr d k = none := by
  induction d with
  | nil => rfl
  | cons p ps ih =>
    simp only [List.map_cons, List.mem_cons] at h
    push_neg at h
    have h3 : ¬ (p.1 = k) := fun hh => h.1 hh.symm
    simp [getAttr, h3, ih h.2]

theorem getAttr_delAttr_self (d : Attrs) (k : String)
    (h : (d.map Prod.fst).Nodup) : getAttr (delAttr d k) k = none := by
  induction d with
  | nil => rfl
  | cons p ps ih =>
    simp only [List.map_cons, List.nodup_cons] at h
    by_cases hp : p.1 = k
    · simp only [delAttr, if_pos hp]
      exact getAttr_eq_none_of_not_mem ps k (hp ▸ h.1)
    · simp [delAttr, getAttr, hp, ih h.2]

/-- One data variable of the parent archive: its name, its number of
dimensions, its per-station rows (meaningful when `ndims = 2`; a station's
row is `rows[position]`), and its attribute dictionary. -/
structure DataVar where
  name : String
  ndims : ℕ
  rows : List (List ℚ)
  attrs : Attrs
deriving DecidableEq

/-- The loaded parent archive (`Parent_NetCDF_File.contents` plus the
coordinate arrays extracted by `get_coordinate_variables_values`).  Times are
carried as their rendered strings (the claims never inspect them). -/
structure ParentData where
  data_vars : List DataVar
  attrs : Attrs
  latitudes : List ℚ
  longitudes : List ℚ
  times : List String
  positions : List ℕ
deriving DecidableEq

/-- `contents[name]` over the data variables. -/
def findVar (p : ParentData) (name : String) : Option DataVar :=
  p.data_vars.find? (fun v => v.name = name)

/-- The parent's `PRES` rows (`np.array(self.contents['PRES'])`). -/
def presRows (p : ParentData) : List (List ℚ) :=
  match findVar p "PRES" with
  | some v => v.rows
  | none => []

/-- `get_min_max_pressures`: `self.min_pressures = [min(i) for i in PRES]`. -/
def min_pressures (p : ParentData) : List ℚ := (presRows p).map rowMin

/-- `get_min_max_pressures`: `self.max_pressures = [max(i) for i in PRES]`. -/
def max_pressures (p : ParentData) : List ℚ := (presRows p).map rowMax

/-- The fixed sentence of source line 87 (an f-string, so the archive's
`doi` value is interpolated into it). -/
def ackSentence (doi : String) : String :=
  "The Nansen Legacy project is funded by the Research Council of Norway (RCN # 276730). These data are created from the CTD data published by NMDC for the whole cruise (" ++ doi ++ "). The values have not be changed. For information about this process, please contact Luke Marsden at data.nleg@unis.no"

/-- The sentence appended to `summary` by source line 88.  That line is NOT
an f-string (no `f` prefix, unlike line 87), so the brace expression is kept
as literal text in the output — this constant reproduces the literal
characters of the source string. -/
def summarySentenceLiteral : String :=
  " These data are created from the CTD data published by NMDC for the whole cruise (\x7bself.contents.attrs[\"doi\"]\x7d). The values have not be changed."

/-- The four attributes deleted at source lines 96–103. -/
def unwanted_atts : List String :=
  ["last_latitude_observation", "last_longitude_observation",
   "format_version", "last_date_observation"]

/-- `Parent_NetCDF_File.add_change_drop_gloabl_attributes` (source lines
77–103; the misspelling is the source's).  Each read of a missing key and
each delete of a missing key surfaces as an `Except.error` (an uncaught
`KeyError` in Python). -/
def add_change_drop_gloabl_attributes (a0 : Attrs) : Except String Attrs := do
  let a1 := setAttr a0 "project" (.str "The Nansen Legacy Project (RCN # 276730)")
  let doi ← getReq a1 "doi"
  let a2 := setAttr a1 "acknowledgement" (.str (ackSentence doi.render))
  let summ ← strReq a2 "summary"
  let a3 := setAttr a2 "summary" (.str (summ ++ summarySentenceLiteral))
  let doi2 ← strReq a3 "doi"
  let a4 := setAttr a3 "references" (.str ("https://doi.org/" ++ doi2))
  let a5 := setAttr a4 "naming_authority" (.str "no.unis")
  let cn ← getReq a5 "creator_name"
  let a6 := setAttr a5 "creator_institution" cn
  let cn2 ← getReq a6 "creator_name"
  let a7 := setAttr a6 "publisher_name" cn2
  let a8 := setAttr a7 "creator_email" (.str "datahjelp@imr.no")
  let ce ← getReq a8 "creator_email"
  let a9 := setAttr a8 "publisher_email" ce
  let cu ← getReq a9 "creator_url"
  let a10 := setAttr a9 "publisher_url" cu
  let a11 ← delReq a10 "last_latitude_observation"
  let a12 ← delReq a11 "last_longitude_observation"
  let a13 ← delReq a12 "format_version"
  let a14 ← delReq a13 "last_date_observation"
  return a14

/-- The global attributes the repair step reads or deletes; absence of any
one of them aborts the run. -/
def requiredGlobalKeys : List String :=
  ["doi", "creator_name", "creator_url"] ++ unwanted_atts

/-- The child dataset under construction: one entry per carried-over
variable, in parent `data_vars` order — name, sliced values, attributes. -/
abbrev ChildVars := List (String × List ℚ × Attrs)

/-- The `sys.exit` message of source lines 203 and 226. -/
def exitMsg (name : String) : String :=
  "Not programmed to handle variables with more than 2 dimensions (" ++ name ++ ")"

/-- Source lines 197–205: for each data variable, a 2-D variable's station
row is sliced to `[i_min:i_max]` and becomes a dataframe column; a `>2`-D
variable aborts the run with `exitMsg`; anything else is skipped. -/
def sliceLoop (pos i_min i_max : ℕ) : List DataVar → Except String (List (String × List ℚ))
  | [] => .ok []
  | v :: vs =>
    if v.ndims = 2 then do
      let rest ← sliceLoop pos i_min i_max vs
      return (v.name, pySlice (v.rows.getD pos []) i_min i_max) :: rest
    else if 2 < v.ndims then .error (exitMsg v.name)
    else sliceLoop pos i_min i_max vs

/-- Source lines 216–224 for one carried-over variable: copy the parent's
attribute dict, then — when the name contains neither `'QC'` nor `'DM'` —
set `coverage_content_type` and scale `valid_min`/`valid_max` by `0.001`
when present.  A present non-numeric bound would be a Python `TypeError`
(the `*` operand), surfaced as an error. -/
def scaleBound (a : Attrs) (k : String) : Except String Attrs :=
  match getAttr a k with
  | none => .ok a
  | some (.num q) => .ok (setAttr a k (.num (q * 0.001)))
  | some _ => .error ("TypeError: " ++ k)

def repairVarAttrs (name : String) (parentAttrs : Attrs) : Except String Attrs :=
  if pyIn "QC" name then .ok parentAttrs
  else if pyIn "DM" name then .ok parentAttrs
  else do
    let a1 := setAttr parentAttrs "coverage_content_type" (.str "physicalMeasurement")
    let a2 ← scaleBound a1 "valid_min"
    let a3 ← scaleBound a2 "valid_max"
    return a3

/-- The inner loop of source lines 232–237, acting on the child variable's
current `ancillary_variables` string: for each space-separated token of the
PARENT's `ancillary_variables` value, if the token is not the name of a
parent data variable, delete every occurrence of it from the child's current
string (`str.replace(av, '')`). -/
def ancillaryTokensFold (parentNames : List String) (tokens : List String)
    (childAttrs : Attrs) : Attrs :=
  tokens.foldl (fun cur av =>
    if av ∈ parentNames then cur
    else
      match getAttr cur "ancillary_variables" with
      | some (.str c) => setAttr cur "ancillary_variables" (.str (removeOccStr av c))
      | _ => cur) childAttrs

/-- `setAttr` on the attributes of the child entry named `name`. -/
def setChildAttrs (ch : ChildVars) (name : String) (a : Attrs) : ChildVars :=
  ch.map (fun e => if e.1 = name then (e.1, e.2.1, a) else e)

/-- Source lines 231–239 (the `try` block) for one parent variable: read the
parent's `ancillary_variables` attribute and look the variable up in the
child; on any failure (`KeyError` on the parent attribute, or the variable
was skipped and is absent from the child) the `except: continue` makes the
step a no-op. -/
def ancillaryStep (parentNames : List String) (v : DataVar) (ch : ChildVars) : ChildVars :=
  match getAttr v.attrs "ancillary_variables", ch.find? (fun e => e.1 = v.name) with
  | some (.str s), some _ =>
      ch.map (fun e =>
        if e.1 = v.name then (e.1, e.2.1, ancillaryTokensFold parentNames (pySplitStr ' ' s) e.2.2)
        else e)
  | _, _ => ch

/-- Source lines 215–239: the second loop over the parent's data variables,
assigning and repairing the child's per-variable attributes and then the
`ancillary_variables` cleanup. -/
def attrLoop (parentNames : List String) : List DataVar → ChildVars → Except String ChildVars
  | [], ch => .ok ch
  | v :: vs, ch =>
    if v.ndims = 2 then
      match repairVarAttrs v.name v.attrs with
      | .error e => .error e
      | .ok a => attrLoop parentNames vs (ancillaryStep parentNames v (setChildAttrs ch v.name a))
    else if 2 < v.ndims then .error (exitMsg v.name)
    else attrLoop parentNames vs (ancillaryStep parentNames v ch)

/-- The parent row of the pressure variable for the given station,
`np.array(self.parentFile.contents['PRES'][self.position])`. -/
def stationPressures (p : ParentData) (pos : ℕ) : List ℚ :=
  (presRows p).getD pos []

/-- `i_min` of source line 192: `list(pressures).index(self.min_pressure)`,
the first-occurrence index of the station's minimum pressure
(`self.min_pressure = min_pressures[position] = min(pressures)`). -/
def iMin (p : ParentData) (pos : ℕ) : ℕ :=
  (stationPressures p pos).indexOf (rowMin (stationPressures p pos))

/-- `i_max` of source line 193, first-occurrence index of the maximum. -/
def iMax (p : ParentData) (pos : ℕ) : ℕ :=
  (stationPressures p pos).indexOf (rowMax (stationPressures p pos))

/-- `Child_NetCDF_File.create_dataset_with_variables` (source lines
180–239): locate the valid window in the station's pressure row, slice every
2-D variable to it, then assign and repair the per-variable attributes.
`self.contents.set_coords('PRES')` (line 209) raises `KeyError` when the
child has no `PRES` column. -/
def create_dataset_with_variables (p : ParentData) (pos : ℕ) : Except String ChildVars := do
  match findVar p "PRES" with
  | none => Except.error "KeyError: PRES"
  | some _ => pure ()
  let cols ← sliceLoop pos (iMin p pos) (iMax p pos) p.data_vars
  if (cols.map Prod.fst).contains "PRES" then
    attrLoop (p.data_vars.map (·.name)) p.data_vars (cols.map (fun c => (c.1, c.2, ([] : Attrs))))
  else .error "KeyError: PRES"

/-- Decimal rendering of `"\x7b:.4f\x7d".format(x)` — four digits after the
point.  The rounding of the underlying binary float is idealised as
round-half-up on `ℚ`; no claim depends on the rendered digits. -/
def fmt4 (q : ℚ) : String :=
  let n : ℤ := round (q * 10000)
  let sign := if n < 0 then "-" else ""
  let m := n.natAbs
  let intPart := toString (m / 10000)
  let fracDigits := toString (m % 10000)
  let fracPart := String.mk (List.replicate (4 - fracDigits.length) '0') ++ fracDigits
  sign ++ intPart ++ "." ++ fracPart

/-- The per-station values derived in `Child_NetCDF_File.__init__` (source
lines 151–178).  `time` is the rendered timestamp of `TIME[position]`; the
numpy `datetime_as_string` rendering is idealised as `split('.')[0]`
of that same string. -/
structure StationCtx where
  position : ℕ
  latitude : ℚ
  longitude : ℚ
  lat_string : String
  lon_string : String
  min_pressure : ℚ
  max_pressure : ℚ
  time : String
  timestamp_string : String
  filename : String
deriving DecidableEq

def childInit (p : ParentData) (pos : ℕ) : StationCtx :=
  let lat := p.latitudes.getD pos 0
  let lon := p.longitudes.getD pos 0
  let t := p.times.getD pos ""
  let latS := pyReplaceChar '.' '-' (fmt4 lat)
  let lonS := pyReplaceChar '.' '-' (fmt4 lon)
  let ts := pyReplaceChar ':' '-' (pyHeadToken '.' t) ++ "Z"
  { position := pos
    latitude := lat
    longitude := lon
    lat_string := latS
    lon_string := lonS
    min_pressure := (min_pressures p).getD pos 0
    max_pressure := (max_pressures p).getD pos 0
    time := t
    timestamp_string := ts
    filename := "Nansen_Legacy_CTD_data_single_station_lat_" ++ latS ++ "_lon_" ++ lonS ++ "_dt_" ++ ts ++ ".nc" }

/-- The unconditional overwrites of source lines 253–268 (they read nothing
from the dictionary, so they cannot fail). -/
def assignFixedGlobals (parentAttrs : Attrs) (st : StationCtx) (dtnow : String) : Attrs :=
  let a := parentAttrs
  let a := setAttr a "geospatial_lat_min" (.num st.latitude)
  let a := setAttr a "geospatial_lat_max" (.num st.latitude)
  let a := setAttr a "geospatial_lon_min" (.num st.longitude)
  let a := setAttr a "geospatial_lon_max" (.num st.longitude)
  let a := setAttr a "geospatial_vertical_min" (.num st.min_pressure)
  let a := setAttr a "geospatial_vertical_max" (.num st.max_pressure)
  let a := setAttr a "geospatial_vertical_units" (.str "dbar")
  let a := setAttr a "geospatial_vertical_resolution" (.str "1 dbar")
  let a := setAttr a "time_coverage_start" (.str (pyHeadToken '.' st.time ++ "Z"))
  let a := setAttr a "time_coverage_end" (.str (pyHeadToken '.' st.time ++ "Z"))
  let a := setAttr a "date_created" (.str dtnow)
  let a := setAttr a "date_update" (.str dtnow)
  setAttr a "history" (.str ("Created at " ++ dtnow ++ " using the xarray library in Python"))

/-- `Child_NetCDF_File.assign_global_attributes` (source lines 241–274):
start from a copy of the parent's (already repaired) global attributes
(line 251, `.copy()`), overwrite the per-station fields, extend `id`,
set `title` to the filename stem, delete `doi`, set `comment`.
`dtnow` stands for `datetime.now().strftime(...)`. -/
def assign_global_attributes (parentAttrs : Attrs) (st : StationCtx) (dtnow : String) :
    Except String Attrs := do
  let a := assignFixedGlobals parentAttrs st dtnow
  let idv ← strReq a "id"
  let a := setAttr a "id" (.str (idv ++ "_" ++ st.lat_string ++ "_" ++ st.lon_string))
  let a := setAttr a "title" (.str (pyHeadToken '.' st.filename))
  let a ← delReq a "doi"
  let a := setAttr a "comment" (.str "Descending CTD profile")
  return a

/-- A per-variable output encoding directive: the `dtype` string and the
`_FillValue` entry (`none` models Python `None`). -/
structure Enc where
  dtype : String
  fillValue : Option AttrVal
deriving DecidableEq

/-- Source lines 295–296: `flag_values.replace(' ','').split(',')` —
delete the space characters, then split on commas. -/
def flagTokens (s : String) : List String :=
  (pySplit ',' (removeOcc [' '] s.data)).map String.mk

/-- The encoding cascade of `output_to_netcdf` (source lines 288–310) for
one variable name: exact-name test for `PRES`, then substring tests for
`'DM'` and `'QC'`, in that order. -/
def encodingFor (name : String) : Enc :=
  if name = "PRES" then ⟨"float32", none⟩
  else if pyIn "DM" name then ⟨"S1", some (.str " ")⟩
  else if pyIn "QC" name then ⟨"int8", some (.num (-127))⟩
  else ⟨"float32", some (.num (-2147483647))⟩

/-- The body of the `output_to_netcdf` loop for one variable: computes its
encoding and, in the `'DM'` branch, rewrites the `flag_values` attribute
from a comma-separated string to an array of its tokens (source line 296).
A missing or non-string `flag_values` on a `'DM'` variable is an uncaught
Python error. -/
def output_encode_var (name : String) (a : Attrs) : Except String (Attrs × Enc) :=
  if name = "PRES" then .ok (a, ⟨"float32", none⟩)
  else if pyIn "DM" name then do
    let fv ← strReq a "flag_values"
    return (setAttr a "flag_values" (.strArr (flagTokens fv)), ⟨"S1", some (.str " ")⟩)
  else if pyIn "QC" name then .ok (a, ⟨"int8", some (.num (-127))⟩)
  else .ok (a, ⟨"float32", some (.num (-2147483647))⟩)

/-- `Child_NetCDF_File.output_to_netcdf` (source lines 276–315), up to the
filesystem write: each child variable gets its encoding and the `'DM'`
variables get their `flag_values` rewritten. -/
def output_to_netcdf : ChildVars → Except String (List (String × List ℚ × Attrs × Enc))
  | [] => .ok []
  | (name, vals, a) :: rest => do
    let (a', enc) ← output_encode_var name a
    let r ← output_to_netcdf rest
    return (name, vals, a', enc) :: r

/-- One written station file: its name and its fully processed contents. -/
structure Station where
  filename : String
  vars : List (String × List ℚ × Attrs × Enc)
  globalAttrs : Attrs
deriving DecidableEq

/-- The body of the station loop in `main` (source lines 327–333): child
construction, extraction, global attributes, output encoding. -/
def processStation (p : ParentData) (pos : ℕ) (dtnow : String) : Except String Station := do
  let st := childInit p pos
  let ch ← create_dataset_with_variables p pos
  let ga ← assign_global_attributes p.attrs st dtnow
  let encoded ← output_to_netcdf ch
  return ⟨st.filename, encoded, ga⟩

/-- `main` for one parent archive (source lines 319–333): repair the global
attributes once, then produce one station file per entry of `POSITION`.
An `Except.error` models `sys.exit`/an uncaught exception: no station files
are produced for the archive in that case. -/
def main_run (p : ParentData) (dtnow : String) : Except String (List Station) := do
  let a ← add_change_drop_gloabl_attributes p.attrs
  let p' : ParentData := { p with attrs := a }
  p'.positions.mapM (fun pos => processStation p' pos dtnow)

/-! ### Characterisation lemmas -/

theorem get_ne_of_lt_indexOf {α : Type} [DecidableEq α] (l : List α) (a : α)
    (j : ℕ) (hj : j < l.indexOf a) (hjl : j < l.length) : l.get ⟨j, hjl⟩ ≠ a := by
  induction l generalizing j with
  | nil => simp at hjl
  | cons x xs ih =>
    by_cases hx : x = a
    · rw [List.indexOf_cons_eq xs hx] at hj; omega
    · cases j with
      | zero => simpa using hx
      | succ n =>
        rw [List.indexOf_cons_ne xs hx] at hj
        exact ih n (Nat.lt_of_succ_lt_succ hj) (by simpa using hjl)

theorem pySlice_length {α : Type} (l : List α) (a b : ℕ) :
    (pySlice l a b).length = min b l.length - a := by
  simp [pySlice]

theorem pySlice_getElem? {α : Type} (l : List α) (a b k : ℕ) (hk : a + k < b) :
    (pySlice l a b)[k]? = l[a + k]? := by
  simp [pySlice, List.getElem?_drop, List.getElem?_take, hk]

/-- Python dataset lookup over the child under construction
(`self.contents[name]`): the first entry with the given name. -/
def lookupChild (ch : ChildVars) (n : String) : Option (String × List ℚ × Attrs) :=
  ch.find? (fun e => e.1 = n)

theorem lookupChild_setChildAttrs_self (ch : ChildVars) (n : String) (a : Attrs) :
    lookupChild (setChildAttrs ch n a) n =
      (lookupChild ch n).map (fun e => (e.1, e.2.1, a)) := by
  induction ch with
  | nil => rfl
  | cons e es ih =>
    show lookupChild ((if e.1 = n then (e.1, e.2.1, a) else e) :: setChildAttrs es n a) n
        = ((fun p => List.find? p (e :: es)) (fun x => decide (x.1 = n))).map
            (fun e => (e.1, e.2.1, a))
    by_cases he : e.1 = n
    · simp only [if_pos he, lookupChild]
      rw [List.find?_cons_of_pos _ (by simpa using he),
          List.find?_cons_of_pos _ (by simpa using he)]
      rfl
    · simp only [if_neg he, lookupChild]
      rw [List.find?_cons_of_neg _ (by simpa using he),
          List.find?_cons_of_neg _ (by simpa using he)]
      exact ih

theorem lookupChild_setChildAttrs_ne (ch : ChildVars) (n m : String) (a : Attrs)
    (h : m ≠ n) : lookupChild (setChildAttrs ch n a) m = lookupChild ch m := by
  induction ch with
  | nil => rfl
  | cons e es ih =>
    show lookupChild ((if e.1 = n then (e.1, e.2.1, a) else e) :: setChildAttrs es n a) m
        = lookupChild (e :: es) m
    by_cases he : e.1 = n
    · have hm : ¬ (e.1 = m) := fun hh => h (by rw [← hh]; exact he)
      simp only [if_pos he, lookupChild]
      rw [List.find?_cons_of_neg _ (by simpa using hm),
          List.find?_cons_of_neg _ (by simpa using hm)]
      exact ih
    · by_cases hm : e.1 = m
      · simp only [if_neg he, lookupChild]
        rw [List.find?_cons_of_pos _ (by simpa using hm),
            List.find?_cons_of_pos _ (by simpa using hm)]
      · simp only [if_neg he, lookupChild]
        rw [List.find?_cons_of_neg _ (by simpa using hm),
            List.find?_cons_of_neg _ (by simpa using hm)]
        exact ih

theorem lookupChild_first (ch : ChildVars) (n : String) (e : String × List ℚ × Attrs)
    (h : lookupChild ch n = some e) : e.1 = n := by
  induction ch with
  | nil => simp [lookupChild] at h
  | cons x xs ih =>
    by_cases hx : x.1 = n
    · rw [lookupChild, List.find?_cons_of_pos _ (by simpa using hx)] at h
      cases h
      exact hx
    · rw [lookupChild, List.find?_cons_of_neg _ (by simpa using hx)] at h
      exact ih h

theorem lookupChild_mapEntry_self (ch : ChildVars) (n : String) (f : Attrs → Attrs) :
    lookupChild (ch.map (fun e => if e.1 = n then (e.1, e.2.1, f e.2.2) else e)) n =
      (lookupChild ch n).map (fun e => (e.1, e.2.1, f e.2.2)) := by
  induction ch with
  | nil => rfl
  | cons e es ih =>
    by_cases he : e.1 = n
    · simp only [List.map_cons, if_pos he, lookupChild]
      rw [List.find?_cons_of_pos _ (by simpa using he),
          List.find?_cons_of_pos _ (by simpa using he)]
      rfl
    · simp only [List.map_cons, if_neg he, lookupChild]
      rw [List.find?_cons_of_neg _ (by simpa using he),
          List.find?_cons_of_neg _ (by simpa using he)]
      exact ih

theorem lookupChild_mapEntry_ne (ch : ChildVars) (n m : String) (f : Attrs → Attrs)
    (h : m ≠ n) :
    lookupChild (ch.map (fun e => if e.1 = n then (e.1, e.2.1, f e.2.2) else e)) m =
      lookupChild ch m := by
  induction ch with
  | nil => rfl
  | cons e es ih =>
    by_cases he : e.1 = n
    · have hm : ¬ (e.1 = m) := fun hh => h (by rw [← hh]; exact he)
      simp only [List.map_cons, if_pos he, lookupChild]
      rw [List.find?_cons_of_neg _ (by simpa using hm),
          List.find?_cons_of_neg _ (by simpa using hm)]
      exact ih
    · by_cases hm : e.1 = m
      · simp only [List.map_cons, if_neg he, lookupChild]
        rw [List.find?_cons_of_pos _ (by simpa using hm),
            List.find?_cons_of_pos _ (by simpa using hm)]
      · simp only [List.map_cons, if_neg he, lookupChild]
        rw [List.find?_cons_of_neg _ (by simpa using hm),
            List.find?_cons_of_neg _ (by simpa using hm)]
        exact ih

theorem lookupChild_ancillaryStep_ne (pn : List String) (v : DataVar) (ch : ChildVars)
    (m : String) (h : m ≠ v.name) :
    lookupChild (ancillaryStep pn v ch) m = lookupChild ch m := by
  unfold ancillaryStep
  rcases hg : getAttr v.attrs "ancillary_variables" with _ | val
  · rfl
  · cases val with
    | str s =>
      rcases hf : ch.find? (fun e => e.1 = v.name) with _ | e
      · rw [hf]
      · rw [hf]
        exact lookupChild_mapEntry_ne ch v.name m _ h
    | num q => rfl
    | strArr l => rfl

theorem lookupChild_ancillaryStep_self (pn : List String) (v : DataVar) (ch : ChildVars)
    (vals : List ℚ) (a0 : Attrs)
    (h : lookupChild ch v.name = some (v.name, vals, a0)) :
    lookupChild (ancillaryStep pn v ch) v.name =
      some (v.name, vals,
        match getAttr v.attrs "ancillary_variables" with
        | some (.str s) => ancillaryTokensFold pn (pySplitStr ' ' s) a0
        | _ => a0) := by
  unfold ancillaryStep
  rcases hg : getAttr v.attrs "ancillary_variables" with _ | val
  · exact h
  · cases val with
    | str s =>
      rw [show (ch.find? fun e => e.1 = v.name) = some (v.name, vals, a0) from h]
      rw [lookupChild_mapEntry_self, h]
      rfl
    | num q => exact h
    | strArr l => exact h

theorem shape_setChildAttrs (ch : ChildVars) (n : String) (a : Attrs) :
    (setChildAttrs ch n a).map (fun e => (e.1, e.2.1)) =
      ch.map (fun e => (e.1, e.2.1)) := by
  induction ch with
  | nil => rfl
  | cons e es ih =>
    show ((if e.1 = n then (e.1, e.2.1, a) else e) :: setChildAttrs es n a).map _ = _
    by_cases he : e.1 = n
    · simp only [if_pos he, List.map_cons]
      exact congrArg (List.cons _) ih
    · simp only [if_neg he, List.map_cons]
      exact congrArg (List.cons _) ih

theorem shape_mapEntry (ch : ChildVars) (n : String) (f : Attrs → Attrs) :
    (ch.map (fun e => if e.1 = n then (e.1, e.2.1, f e.2.2) else e)).map
        (fun e => (e.1, e.2.1)) =
      ch.map (fun e => (e.1, e.2.1)) := by
  induction ch with
  | nil => rfl
  | cons e es ih =>
    by_cases he : e.1 = n
    · simp only [List.map_cons, if_pos he]
      exact congrArg (List.cons _) ih
    · simp only [List.map_cons, if_neg he]
      exact congrArg (List.cons _) ih

theorem shape_ancillaryStep (pn : List String) (v : DataVar) (ch : ChildVars) :
    (ancillaryStep pn v ch).map (fun e => (e.1, e.2.1)) =
      ch.map (fun e => (e.1, e.2.1)) := by
  unfold ancillaryStep
  rcases hg : getAttr v.attrs "ancillary_variables" with _ | val
  · rfl
  · cases val with
    | str s =>
      rcases hf : ch.find? (fun e => e.1 = v.name) with _ | e
      · rw [hf]
      · rw [hf]
        exact shape_mapEntry ch v.name _
    | num q => rfl
    | strArr l => rfl

/-- The value `scaleBound` produces when it does not fail. -/
def scaleBoundP (a : Attrs) (k : String) : Attrs :=
  match getAttr a k with
  | some (.num q) => setAttr a k (.num (q * 0.001))
  | _ => a

/-- The value `repairVarAttrs` produces when it does not fail. -/
def repairedVarAttrs (name : String) (a : Attrs) : Attrs :=
  if pyIn "QC" name then a
  else if pyIn "DM" name then a
  else
    scaleBoundP (scaleBoundP (setAttr a "coverage_content_type"
      (.str "physicalMeasurement")) "valid_min") "valid_max"

theorem scaleBound_ok_eq (a b : Attrs) (k : String)
    (h : scaleBound a k = .ok b) : b = scaleBoundP a k := by
  unfold scaleBound scaleBoundP at *
  rcases hg : getAttr a k with _ | val
  · rw [hg] at h; cases h; rfl
  · cases val with
    | str s => rw [hg] at h; cases h
    | num q => rw [hg] at h; cases h; rfl
    | strArr l => rw [hg] at h; cases h

theorem repairVarAttrs_ok_eq (name : String) (a b : Attrs)
    (h : repairVarAttrs name a = .ok b) : b = repairedVarAttrs name a := by
  unfold repairVarAttrs repairedVarAttrs at *
  by_cases hqc : pyIn "QC" name
  · simp only [hqc, if_true] at *
    cases h; rfl
  · simp only [hqc, if_false, Bool.false_eq_true, if_neg] at *
    by_cases hdm : pyIn "DM" name
    · simp only [hdm, if_true] at *
      cases h; rfl
    · simp only [hdm, if_false, Bool.false_eq_true, if_neg] at *
      rcases h1 : scaleBound (setAttr a "coverage_content_type"
          (.str "physicalMeasurement")) "valid_min" with e | b1
      · rw [h1] at h
        simp only [bind, Except.bind] at h
        exact Except.noConfusion h
      · rw [h1] at h
        simp only [bind, Except.bind] at h
        rcases h2 : scaleBound b1 "valid_max" with e | b2
        · rw [h2] at h
          simp only [bind, Except.bind] at h
          exact Except.noConfusion h
        · rw [h2] at h
          simp only [bind, Except.bind, pure, Except.pure, Except.ok.injEq] at h
          rw [← h, scaleBound_ok_eq _ _ _ h2, scaleBound_ok_eq _ _ _ h1]

/-- The per-variable attributes of the finished child: the repaired copy of
the parent's attributes, then the ancillary-reference cleanup. -/
def finalVarAttrs (pn : List String) (v : DataVar) : Attrs :=
  match getAttr v.attrs "ancillary_variables" with
  | some (.str s) => ancillaryTokensFold pn (pySplitStr ' ' s) (repairedVarAttrs v.name v.attrs)
  | _ => repairedVarAttrs v.name v.attrs

theorem attrLoop_shape (pn : List String) (vs : List DataVar) (ch ch' : ChildVars)
    (h : attrLoop pn vs ch = .ok ch') :
    ch'.map (fun e => (e.1, e.2.1)) = ch.map (fun e => (e.1, e.2.1)) := by
  induction vs generalizing ch with
  | nil =>
    unfold attrLoop at h
    cases h
    rfl
  | cons v vs ih =>
    unfold attrLoop at h
    by_cases h2 : v.ndims = 2
    · simp only [if_pos h2] at h
      rcases hr : repairVarAttrs v.name v.attrs with e | a
      · rw [hr] at h; cases h
      · rw [hr] at h
        rw [ih _ h, shape_ancillaryStep, shape_setChildAttrs]
    · simp only [if_neg h2] at h
      by_cases h3 : 2 < v.ndims
      · simp only [if_pos h3] at h; cases h
      · simp only [if_neg h3] at h
        rw [ih _ h, shape_ancillaryStep]

theorem attrLoop_frame (pn : List String) (vs : List DataVar) (ch ch' : ChildVars)
    (m : String) (h : attrLoop pn vs ch = .ok ch')
    (hm : m ∉ vs.map DataVar.name) :
    lookupChild ch' m = lookupChild ch m := by
  induction vs generalizing ch with
  | nil =>
    unfold attrLoop at h
    cases h
    rfl
  | cons v vs ih =>
    simp only [List.map_cons, List.mem_cons] at hm
    push_neg at hm
    unfold attrLoop at h
    by_cases h2 : v.ndims = 2
    · simp only [if_pos h2] at h
      rcases hr : repairVarAttrs v.name v.attrs with e | a
      · rw [hr] at h; cases h
      · rw [hr] at h
        rw [ih _ h hm.2, lookupChild_ancillaryStep_ne _ _ _ _ hm.1,
          lookupChild_setChildAttrs_ne _ _ _ _ hm.1]
    · simp only [if_neg h2] at h
      by_cases h3 : 2 < v.ndims
      · simp only [if_pos h3] at h; cases h
      · simp only [if_neg h3] at h
        rw [ih _ h hm.2, lookupChild_ancillaryStep_ne _ _ _ _ hm.1]

theorem attrLoop_ok (pn : List String) (vs : List DataVar) (ch : ChildVars)
    (hall : ∀ v ∈ vs, v.ndims ≤ 2)
    (hsafe : ∀ v ∈ vs, v.ndims = 2 → (repairVarAttrs v.name v.attrs).isOk = true) :
    ∃ ch', attrLoop pn vs ch = .ok ch' := by
  induction vs generalizing ch with
  | nil => exact ⟨ch, rfl⟩
  | cons v vs ih =>
    unfold attrLoop
    by_cases h2 : v.ndims = 2
    · simp only [if_pos h2]
      rcases hr : repairVarAttrs v.name v.attrs with e | a
      · have := hsafe v (List.mem_cons_self v vs) h2
        rw [hr] at this
        simp [Except.isOk, Except.toBool] at this
      · exact ih _ (fun w hw => hall w (List.mem_cons_of_mem _ hw))
          (fun w hw => hsafe w (List.mem_cons_of_mem _ hw))
    · have h3 : ¬ (2 < v.ndims) := by
        have := hall v (List.mem_cons_self v vs); omega
      simp only [if_neg h2, if_neg h3]
      exact ih _ (fun w hw => hall w (List.mem_cons_of_mem _ hw))
        (fun w hw => hsafe w (List.mem_cons_of_mem _ hw))

theorem attrLoop_lookup (pn : List String) (vs : List DataVar) (ch ch' : ChildVars)
    (v : DataVar) (vals : List ℚ) (a0 : Attrs)
    (h : attrLoop pn vs ch = .ok ch')
    (hv : v ∈ vs) (h2 : v.ndims = 2)
    (hnd : (vs.map DataVar.name).Nodup)
    (hentry : lookupChild ch v.name = some (v.name, vals, a0)) :
    lookupChild ch' v.name = some (v.name, vals, finalVarAttrs pn v) := by
  induction vs generalizing ch with
  | nil => cases hv
  | cons w ws ih =>
    simp only [List.map_cons, List.nodup_cons] at hnd
    unfold attrLoop at h
    rcases List.mem_cons.mp hv with rfl | hvw
    · simp only [if_pos h2] at h
      rcases hr : repairVarAttrs v.name v.attrs with e | a
      · rw [hr] at h; cases h
      · rw [hr] at h
        have hset := lookupChild_setChildAttrs_self ch v.name a
        rw [hentry] at hset
        have hstep := lookupChild_ancillaryStep_self pn v
          (setChildAttrs ch v.name a) vals a (by simpa using hset)
        rw [attrLoop_frame pn ws _ ch' v.name h hnd.1, hstep,
          repairVarAttrs_ok_eq v.name v.attrs a hr]
        rfl
    · have hwv : w.name ≠ v.name := by
        intro hh
        exact hnd.1 (hh ▸ List.mem_map_of_mem DataVar.name hvw)
      by_cases hw2 : w.ndims = 2
      · simp only [if_pos hw2] at h
        rcases hr : repairVarAttrs w.name w.attrs with e | a
        · rw [hr] at h; cases h
        · rw [hr] at h
          refine ih _ h hvw hnd.2 ?_
          rw [lookupChild_ancillaryStep_ne _ _ _ _ hwv.symm,
            lookupChild_setChildAttrs_ne _ _ _ _ hwv.symm]
          exact hentry
      · simp only [if_neg hw2] at h
        by_cases hw3 : 2 < w.ndims
        · simp only [if_pos hw3] at h; cases h
        · simp only [if_neg hw3] at h
          refine ih _ h hvw hnd.2 ?_
          rw [lookupChild_ancillaryStep_ne _ _ _ _ hwv.symm]
          exact hentry

theorem sliceLoop_ok (pos a b : ℕ) (vs : List DataVar)
    (hall : ∀ v ∈ vs, v.ndims ≤ 2) :
    sliceLoop pos a b vs = .ok ((vs.filter (fun v => v.ndims == 2)).map
      (fun v => (v.name, pySlice (v.rows.getD pos []) a b))) := by
  induction vs with
  | nil => rfl
  | cons v vs ih =>
    unfold sliceLoop
    by_cases h2 : v.ndims = 2
    · simp only [if_pos h2]
      rw [ih (fun w hw => hall w (List.mem_cons_of_mem _ hw))]
      simp [List.filter_cons, h2]
    · have h3 : ¬ (2 < v.ndims) := by
        have := hall v (List.mem_cons_self v vs); omega
      simp only [if_neg h2, if_neg h3]
      rw [ih (fun w hw => hall w (List.mem_cons_of_mem _ hw))]
      simp [List.filter_cons, h2]

theorem sliceLoop_error (pos a b : ℕ) (vs : List DataVar)
    (hbad : ∃ v ∈ vs, 2 < v.ndims) :
    ∃ v ∈ vs, 2 < v.ndims ∧ sliceLoop pos a b vs = .error (exitMsg v.name) := by
  induction vs with
  | nil => rcases hbad with ⟨v, hv, _⟩; cases hv
  | cons w ws ih =>
    by_cases hw2 : w.ndims = 2
    · rcases hbad with ⟨v, hv, hvbad⟩
      rcases List.mem_cons.mp hv with rfl | hvw
      · omega
      · rcases ih ⟨v, hvw, hvbad⟩ with ⟨u, hu, hubad, herr⟩
        refine ⟨u, List.mem_cons_of_mem _ hu, hubad, ?_⟩
        unfold sliceLoop
        simp only [if_pos hw2, herr]
        rfl
    · by_cases hw3 : 2 < w.ndims
      · refine ⟨w, List.mem_cons_self w ws, hw3, ?_⟩
        unfold sliceLoop
        simp only [if_neg hw2, if_pos hw3]
      · rcases hbad with ⟨v, hv, hvbad⟩
        rcases List.mem_cons.mp hv with rfl | hvw
        · omega
        · rcases ih ⟨v, hvw, hvbad⟩ with ⟨u, hu, hubad, herr⟩
          refine ⟨u, List.mem_cons_of_mem _ hu, hubad, ?_⟩
          unfold sliceLoop
          simp only [if_neg hw2, if_neg hw3, herr]

theorem lookup_init_child (l : List DataVar) (g : DataVar → List ℚ) (v : DataVar)
    (hnd : (l.map DataVar.name).Nodup) (hv : v ∈ l) :
    lookupChild (l.map (fun w => (w.name, g w, ([] : Attrs)))) v.name =
      some (v.name, g v, []) := by
  induction l with
  | nil => cases hv
  | cons w ws ih =>
    simp only [List.map_cons, List.nodup_cons] at hnd
    rcases List.mem_cons.mp hv with rfl | hvw
    · rw [lookupChild, List.map_cons, List.find?_cons_of_pos _ (by simp)]
    · have hwv : ¬ (w.name = v.name) := by
        intro hh
        exact hnd.1 (hh ▸ List.mem_map_of_mem DataVar.name hvw)
      rw [lookupChild, List.map_cons, List.find?_cons_of_neg _ (by simpa using hwv)]
      exact ih hnd.2 hvw

/-- The names present in parent `data_vars`. -/
def parentNames (p : ParentData) : List String := p.data_vars.map DataVar.name

/-- Complete characterisation of `create_dataset_with_variables` on archives
every claim's hypotheses describe: extraction succeeds, and the child holds,
per 2-dimensional parent variable, the `[i_min:i_max]` slice of its station
row together with the repaired attributes. -/
theorem create_dataset_char (p : ParentData) (pos : ℕ) (pv : DataVar)
    (hpres : findVar p "PRES" = some pv) (hpv2 : pv.ndims = 2)
    (hall : ∀ v ∈ p.data_vars, v.ndims ≤ 2)
    (hsafe : ∀ v ∈ p.data_vars, v.ndims = 2 →
      (repairVarAttrs v.name v.attrs).isOk = true)
    (hnd : ((p.data_vars.map DataVar.name)).Nodup) :
    ∃ ch', create_dataset_with_variables p pos = .ok ch' ∧
      ch'.map (fun e => (e.1, e.2.1)) =
        (p.data_vars.filter (fun v => v.ndims == 2)).map
          (fun v => (v.name, pySlice (v.rows.getD pos []) (iMin p pos) (iMax p pos))) ∧
      ∀ v ∈ p.data_vars, v.ndims = 2 →
        lookupChild ch' v.name =
          some (v.name, pySlice (v.rows.getD pos []) (iMin p pos) (iMax p pos),
            finalVarAttrs (parentNames p) v) := by
  have hpvmem : pv ∈ p.data_vars ∧ pv.name = "PRES" := by
    constructor
    · exact List.mem_of_find?_eq_some hpres
    · have := List.find?_some hpres
      simpa using this
  have hslice := sliceLoop_ok pos (iMin p pos) (iMax p pos) p.data_vars hall
  have hndf : ((p.data_vars.filter (fun v => v.ndims == 2)).map DataVar.name).Nodup := by
    refine List.Nodup.sublist ?_ hnd
    exact List.Sublist.map DataVar.name (List.filter_sublist _)
  have hpvf : pv ∈ p.data_vars.filter (fun v => v.ndims == 2) := by
    rw [List.mem_filter]
    exact ⟨hpvmem.1, by simp [hpv2]⟩
  have hcontains : (((p.data_vars.filter (fun v => v.ndims == 2)).map
      (fun v => (v.name, pySlice (v.rows.getD pos []) (iMin p pos) (iMax p pos)))).map
        Prod.fst).contains "PRES" = true := by
    rw [List.map_map]
    simp only [List.contains_eq_any_beq, List.any_eq_true]
    refine ⟨pv.name, ?_, by simp [hpvmem.2]⟩
    exact List.mem_map_of_mem _ hpvf
  rcases attrLoop_ok (parentNames p) p.data_vars
      (((p.data_vars.filter (fun v => v.ndims == 2)).map
        (fun v => (v.name, pySlice (v.rows.getD pos []) (iMin p pos) (iMax p pos)))).map
          (fun c => (c.1, c.2, ([] : Attrs)))) hall hsafe with ⟨ch', hch'⟩
  refine ⟨ch', ?_, ?_, ?_⟩
  · unfold create_dataset_with_variables
    rw [hpres]
    simp only [bind, Except.bind, hslice, hcontains, if_pos]
    rw [← hch']
    rfl
  · rw [attrLoop_shape _ _ _ _ hch', List.map_map, List.map_map]
    exact List.map_congr_left fun w hw => rfl
  · intro v hv hv2
    refine attrLoop_lookup (parentNames p) p.data_vars _ ch' v _ [] hch' hv hv2 hnd ?_
    have hmap : ((p.data_vars.filter (fun v => v.ndims == 2)).map
        (fun v => (v.name, pySlice (v.rows.getD pos []) (iMin p pos) (iMax p pos)))).map
          (fun c => (c.1, c.2, ([] : Attrs))) =
        (p.data_vars.filter (fun v => v.ndims == 2)).map
          (fun w => (w.name, pySlice (w.rows.getD pos []) (iMin p pos) (iMax p pos), ([] : Attrs))) := by
      rw [List.map_map]
      rfl
    rw [hmap]
    exact lookup_init_child _ _ v hndf (List.mem_filter.mpr ⟨hv, by simp [hv2]⟩)

theorem ancillaryTokensFold_cons (pn : List String) (t : String) (ts : List String)
    (a : Attrs) :
    ancillaryTokensFold pn (t :: ts) a =
      ancillaryTokensFold pn ts
        (if t ∈ pn then a
         else match getAttr a "ancillary_variables" with
           | some (.str c) => setAttr a "ancillary_variables" (.str (removeOccStr t c))
           | _ => a) := rfl

theorem getAttr_ancFold_ne (pn : List String) (ts : List String) (a : Attrs)
    (k : String) (hk : k ≠ "ancillary_variables") :
    getAttr (ancillaryTokensFold pn ts a) k = getAttr a k := by
  induction ts generalizing a with
  | nil => rfl
  | cons t ts ih =>
    rw [ancillaryTokensFold_cons]
    by_cases ht : t ∈ pn
    · rw [if_pos ht]
      exact ih a
    · rw [if_neg ht]
      rcases hg : getAttr a "ancillary_variables" with _ | val
      · rw [ih]
      · cases val with
        | str c =>
          rw [ih]
          exact getAttr_setAttr_ne a "ancillary_variables" k _ hk
        | num q => rw [ih]
        | strArr l => rw [ih]

/-- The `ancillary_variables` string the cleanup leaves behind: fold over the
space-separated tokens of the parent's value, deleting (by substring
replacement) every token that is not a parent data-variable name. -/
def specAncillaryClean (pn : List String) (s : String) : String :=
  (pySplitStr ' ' s).foldl
    (fun cur av => if av ∈ pn then cur else removeOccStr av cur) s

theorem ancFold_value (pn : List String) (ts : List String) (a : Attrs) (s : String)
    (h : getAttr a "ancillary_variables" = some (.str s)) :
    getAttr (ancillaryTokensFold pn ts a) "ancillary_variables" =
      some (.str (ts.foldl
        (fun cur av => if av ∈ pn then cur else removeOccStr av cur) s)) := by
  induction ts generalizing a s with
  | nil => exact h
  | cons t ts ih =>
    rw [ancillaryTokensFold_cons]
    by_cases ht : t ∈ pn
    · rw [if_pos ht, ih a s h, List.foldl_cons, if_pos ht]
    · rw [if_neg ht, h,
        ih _ (removeOccStr t s) (getAttr_setAttr_self a "ancillary_variables" _),
        List.foldl_cons, if_neg ht]

theorem getAttr_scaleBoundP_ne (a : Attrs) (k k' : String) (h : k' ≠ k) :
    getAttr (scaleBoundP a k) k' = getAttr a k' := by
  unfold scaleBoundP
  rcases hg : getAttr a k with _ | val
  · rfl
  · cases val with
    | str s => rfl
    | num q => exact getAttr_setAttr_ne a k k' _ h
    | strArr l => rfl

theorem getAttr_repairedVarAttrs_anc (name : String) (a : Attrs) :
    getAttr (repairedVarAttrs name a) "ancillary_variables" =
      getAttr a "ancillary_variables" := by
  unfold repairedVarAttrs
  by_cases hqc : pyIn "QC" name
  · simp [hqc]
  · by_cases hdm : pyIn "DM" name
    · simp [hqc, hdm]
    · simp only [hqc, hdm, Bool.false_eq_true, if_neg, if_false]
      rw [getAttr_scaleBoundP_ne _ _ _ (by decide),
        getAttr_scaleBoundP_ne _ _ _ (by decide),
        getAttr_setAttr_ne _ _ _ _ (by decide)]

theorem getAttr_repairedVarAttrs_cov (name : String) (a : Attrs)
    (hqc : pyIn "QC" name = false) (hdm : pyIn "DM" name = false) :
    getAttr (repairedVarAttrs name a) "coverage_content_type" =
      some (.str "physicalMeasurement") := by
  unfold repairedVarAttrs
  simp only [hqc, hdm, Bool.false_eq_true, if_neg, if_false]
  rw [getAttr_scaleBoundP_ne _ _ _ (by decide),
    getAttr_scaleBoundP_ne _ _ _ (by decide),
    getAttr_setAttr_self]

theorem getAttr_repairedVarAttrs_vmin (name : String) (a : Attrs) (q : ℚ)
    (hqc : pyIn "QC" name = false) (hdm : pyIn "DM" name = false)
    (h : getAttr a "valid_min" = some (.num q)) :
    getAttr (repairedVarAttrs name a) "valid_min" = some (.num (q * 0.001)) := by
  unfold repairedVarAttrs
  simp only [hqc, hdm, Bool.false_eq_true, if_neg, if_false]
  have h1 : getAttr (setAttr a "coverage_content_type"
      (.str "physicalMeasurement")) "valid_min" = some (.num q) := by
    rw [getAttr_setAttr_ne _ _ _ _ (by decide)]; exact h
  rw [getAttr_scaleBoundP_ne _ _ _ (by decide)]
  unfold scaleBoundP
  rw [h1]
  exact getAttr_setAttr_self _ _ _

theorem getAttr_repairedVarAttrs_vmax (name : String) (a : Attrs) (q : ℚ)
    (hqc : pyIn "QC" name = false) (hdm : pyIn "DM" name = false)
    (h : getAttr a "valid_max" = some (.num q)) :
    getAttr (repairedVarAttrs name a) "valid_max" = some (.num (q * 0.001)) := by
  unfold repairedVarAttrs
  simp only [hqc, hdm, Bool.false_eq_true, if_neg, if_false]
  have h1 : getAttr (scaleBoundP (setAttr a "coverage_content_type"
      (.str "physicalMeasurement")) "valid_min") "valid_max" = some (.num q) := by
    rw [getAttr_scaleBoundP_ne _ _ _ (by decide),
      getAttr_setAttr_ne _ _ _ _ (by decide)]
    exact h
  have h2 : ∀ (b : Attrs), getAttr b "valid_max" = some (.num q) →
      getAttr (scaleBoundP b "valid_max") "valid_max" = some (.num (q * 0.001)) := by
    intro b hb
    unfold scaleBoundP
    rw [hb]
    exact getAttr_setAttr_self _ _ _
  exact h2 _ h1

/-! ### Reference-semantics model of the attribute dictionaries

The frame claim (parent read-only across the station loop) is about Python
object identity: `xarray` attribute dictionaries are mutable objects, so the
per-station steps could only corrupt the parent through aliasing.  The heap
below makes the dictionary objects explicit: the parent's global dict and
each parent variable's dict live at fixed references; the source's
`.copy()` (line 251) and the `attrs` setter's `dict(value)` (behind
line 217) are modelled as allocations of fresh references, and every
mutation (lines 218–224, 231–239, 253–274, 296) is a `writeRef` to the
reference it targets in the source. -/

abbrev Heap := List Attrs

def readRef (h : Heap) (r : ℕ) : Attrs := h.getD r []

def writeRef (h : Heap) (r : ℕ) (d : Attrs) : Heap := h.set r d

def allocRef (h : Heap) (d : Attrs) : Heap × ℕ := (h ++ [d], h.length)

/-- Lines 215–239 for one carried-over variable, on the heap: read the
parent's dict (line 217 right-hand side), allocate the child's dict as a
fresh copy of it (the `attrs` setter builds `dict(value)`), repair it, run
the ancillary cleanup, and write the result through the child's reference
only. -/
def childStep (pn : List String) (name : String) (r : ℕ) (h : Heap) :
    Except String (Heap × ℕ) := do
  let d := readRef h r
  let (h1, cr) := allocRef h d
  let d1 ← repairVarAttrs name d
  let d2 := match getAttr d "ancillary_variables" with
    | some (.str s) => ancillaryTokensFold pn (pySplitStr ' ' s) d1
    | _ => d1
  return (writeRef h1 cr d2, cr)

/-- Lines 215–239 over all carried-over variables. -/
def childVarDictsHeap (pn : List String) :
    List (String × ℕ) → Heap → Except String (Heap × List (String × ℕ))
  | [], h => .ok (h, [])
  | (name, r) :: rest, h => do
    let (h2, cr) ← childStep pn name r h
    let (h3, crs) ← childVarDictsHeap pn rest h2
    return (h3, (name, cr) :: crs)

/-- Line 296 (inside `output_to_netcdf`): the `flag_values` rewrite mutates
the child variable dicts through the child references. -/
def flagRewriteHeap : List (String × ℕ) → Heap → Except String Heap
  | [], h => .ok h
  | (name, cr) :: rest, h =>
    if pyIn "DM" name then do
      let d := readRef h cr
      let fv ← strReq d "flag_values"
      flagRewriteHeap rest
        (writeRef h cr (setAttr d "flag_values" (.strArr (flagTokens fv))))
    else flagRewriteHeap rest h

/-- One full station iteration (lines 329–332) restricted to its effects on
the attribute dictionaries: child variable dicts, then the child's global
dict (line 251 copies the parent's global dict; lines 253–274 mutate the
copy, including `del ...['doi']`), then the `flag_values` rewrites of the
write step.  Returns the heap and the child's global dict reference. -/
def stationHeap (pn : List String) (pvars : List (String × ℕ)) (gRef : ℕ)
    (st : StationCtx) (dtnow : String) (h : Heap) : Except String (Heap × ℕ) := do
  let (h1, childRefs) ← childVarDictsHeap pn pvars h
  let d := readRef h1 gRef
  let (h2, cg) := allocRef h1 d
  let ga ← assign_global_attributes d st dtnow
  let h3 := writeRef h2 cg ga
  let h4 ← flagRewriteHeap childRefs h3
  return (h4, cg)

/-- The station loop of `main` (lines 327–333) on the heap. -/
def stationsHeapLoop (pn : List String) (pvars : List (String × ℕ)) (gRef : ℕ)
    (dtnow : String) : List StationCtx → Heap → Except String Heap
  | [], h => .ok h
  | st :: sts, h => do
    let (h1, _) ← stationHeap pn pvars gRef st dtnow h
    stationsHeapLoop pn pvars gRef dtnow sts h1

theorem readRef_writeRef_ne (h : Heap) (r r' : ℕ) (d : Attrs) (hne : r' ≠ r) :
    readRef (writeRef h r d) r' = readRef h r' := by
  unfold readRef writeRef
  rw [List.getD_eq_getElem?_getD, List.getD_eq_getElem?_getD,
    List.getElem?_set_ne (fun hh => hne hh.symm)]

theorem readRef_append_lt (h : Heap) (d : Attrs) (r : ℕ) (hr : r < h.length) :
    readRef (h ++ [d]) r = readRef h r := by
  unfold readRef
  rw [List.getD_eq_getElem?_getD, List.getD_eq_getElem?_getD,
    List.getElem?_append, if_pos hr]

theorem childStep_char (pn : List String) (name : String) (r : ℕ) (h h2 : Heap)
    (cr : ℕ) (hok : childStep pn name r h = .ok (h2, cr)) :
    h2.length = h.length + 1 ∧ cr = h.length ∧
    (∀ r', r' < h.length → readRef h2 r' = readRef h r') := by
  unfold childStep at hok
  simp only [allocRef] at hok
  rcases hr1 : repairVarAttrs name (readRef h r) with e | d1
  · rw [hr1] at hok
    simp only [allocRef, bind, Except.bind] at hok
    exact Except.noConfusion hok
  · rw [hr1] at hok
    simp only [allocRef, bind, Except.bind, pure, Except.pure,
      Except.ok.injEq, Prod.mk.injEq] at hok
    rcases hok with ⟨hh2, hcr⟩
    refine ⟨?_, hcr.symm, ?_⟩
    · rw [← hh2, writeRef, List.length_set, List.length_append]
      rfl
    · intro r' hr'
      rw [← hh2,
        readRef_writeRef_ne _ _ _ _ (by omega),
        readRef_append_lt h _ r' hr']

theorem childVarDictsHeap_frame (pn : List String) (vars : List (String × ℕ))
    (h h' : Heap) (crs : List (String × ℕ))
    (hok : childVarDictsHeap pn vars h = .ok (h', crs)) :
    h.length ≤ h'.length ∧
    (∀ r, r < h.length → readRef h' r = readRef h r) ∧
    (∀ c ∈ crs, h.length ≤ c.2 ∧ c.2 < h'.length) := by
  induction vars generalizing h crs with
  | nil =>
    unfold childVarDictsHeap at hok
    cases hok
    exact ⟨le_refl _, fun r _ => rfl, fun c hc => absurd hc (List.not_mem_nil c)⟩
  | cons nr rest ih =>
    unfold childVarDictsHeap at hok
    rcases hstep : childStep pn nr.1 nr.2 h with e | ⟨h2, cr⟩
    · rw [hstep] at hok
      simp only [bind, Except.bind] at hok
      exact Except.noConfusion hok
    · rw [hstep] at hok
      simp only [bind, Except.bind] at hok
      rcases hrest : childVarDictsHeap pn rest h2 with e | ⟨h3, crs'⟩
      · rw [hrest] at hok
        exact Except.noConfusion hok
      · rw [hrest] at hok
        simp only [pure, Except.pure, Except.ok.injEq, Prod.mk.injEq] at hok
        rcases hok with ⟨hh3, hcrs'⟩
        subst hh3
        rcases childStep_char pn nr.1 nr.2 h h2 cr hstep with ⟨hl2, hcr, hfr2⟩
        rcases ih _ _ hrest with ⟨hlen, hframe, hcrs⟩
        constructor
        · omega
        constructor
        · intro r hr
          rw [hframe r (by omega), hfr2 r hr]
        · intro c hc
          rw [← hcrs'] at hc
          rcases List.mem_cons.mp hc with rfl | hc'
          · exact ⟨by omega, by omega⟩
          · rcases hcrs c hc' with ⟨hc1, hc2⟩
            exact ⟨by omega, hc2⟩

theorem readRef_writeRef_self (h : Heap) (r : ℕ) (d : Attrs) (hr : r < h.length) :
    readRef (writeRef h r d) r = d := by
  unfold readRef writeRef
  rw [List.getD_eq_getElem?_getD, List.getElem?_set_self hr]
  rfl

theorem mem_keys_setAttr (d : Attrs) (k : String) (v : AttrVal) (m : String)
    (h : m ∈ (setAttr d k v).map Prod.fst) : m ∈ d.map Prod.fst ∨ m = k := by
  induction d with
  | nil =>
    simp [setAttr] at h
    exact Or.inr h
  | cons p ps ih =>
    by_cases hp : p.1 = k
    · simp only [setAttr, if_pos hp, List.map_cons, List.mem_cons] at h
      rcases h with rfl | h
      · exact Or.inr rfl
      · exact Or.inl (List.mem_cons_of_mem _ h)
    · simp only [setAttr, if_neg hp, List.map_cons, List.mem_cons] at h
      rcases h with rfl | h
      · exact Or.inl (List.mem_cons_self _ _)
      · rcases ih h with h' | h'
        · exact Or.inl (List.mem_cons_of_mem _ h')
        · exact Or.inr h'

theorem nodup_setAttr (d : Attrs) (k : String) (v : AttrVal)
    (h : (d.map Prod.fst).Nodup) : ((setAttr d k v).map Prod.fst).Nodup := by
  induction d with
  | nil => simp [setAttr]
  | cons p ps ih =>
    simp only [List.map_cons, List.nodup_cons] at h
    by_cases hp : p.1 = k
    · simp only [setAttr, if_pos hp, List.map_cons, List.nodup_cons]
      exact ⟨hp ▸ h.1, h.2⟩
    · simp only [setAttr, if_neg hp, List.map_cons, List.nodup_cons]
      refine ⟨?_, ih h.2⟩
      intro hmem
      rcases mem_keys_setAttr ps k v p.1 hmem with h' | h'
      · exact h.1 h'
      · exact hp h'

theorem nodup_assignFixedGlobals (d : Attrs) (st : StationCtx) (dtnow : String)
    (h : (d.map Prod.fst).Nodup) :
    ((assignFixedGlobals d st dtnow).map Prod.fst).Nodup := by
  unfold assignFixedGlobals
  repeat' apply nodup_setAttr
  exact h

theorem assign_global_doi_none (d : Attrs) (st : StationCtx) (dtnow : String)
    (ga : Attrs) (hok : assign_global_attributes d st dtnow = .ok ga)
    (hnd : (d.map Prod.fst).Nodup) : getAttr ga "doi" = none := by
  unfold assign_global_attributes at hok
  dsimp only at hok
  rcases hid : strReq (assignFixedGlobals d st dtnow) "id" with e | idv
  · rw [hid] at hok
    simp only [bind, Except.bind] at hok
    exact Except.noConfusion hok
  · rw [hid] at hok
    simp only [bind, Except.bind] at hok
    rcases hdel : delReq (setAttr (setAttr (assignFixedGlobals d st dtnow) "id"
        (.str (idv ++ "_" ++ st.lat_string ++ "_" ++ st.lon_string))) "title"
        (.str (pyHeadToken '.' st.filename))) "doi" with e | a'
    · rw [hdel] at hok
      exact Except.noConfusion hok
    · rw [hdel] at hok
      simp only [pure, Except.pure, Except.ok.injEq] at hok
      have ha' : a' = delAttr (setAttr (setAttr (assignFixedGlobals d st dtnow) "id"
          (.str (idv ++ "_" ++ st.lat_string ++ "_" ++ st.lon_string))) "title"
          (.str (pyHeadToken '.' st.filename))) "doi" := by
        unfold delReq at hdel
        rcases hg : getAttr (setAttr (setAttr (assignFixedGlobals d st dtnow) "id"
            (.str (idv ++ "_" ++ st.lat_string ++ "_" ++ st.lon_string))) "title"
            (.str (pyHeadToken '.' st.filename))) "doi" with _ | val
        · rw [hg] at hdel
          exact Except.noConfusion hdel
        · rw [hg] at hdel
          cases hdel
          rfl
      rw [← hok, getAttr_setAttr_ne _ _ _ _ (by decide), ha',
        getAttr_delAttr_self]
      apply nodup_setAttr
      apply nodup_setAttr
      exact nodup_assignFixedGlobals d st dtnow hnd

theorem flagRewriteHeap_frame (crs : List (String × ℕ)) (h h' : Heap)
    (hok : flagRewriteHeap crs h = .ok h') :
    h'.length = h.length ∧
    ∀ r, (∀ c ∈ crs, c.2 ≠ r) → readRef h' r = readRef h r := by
  induction crs generalizing h with
  | nil =>
    unfold flagRewriteHeap at hok
    cases hok
    exact ⟨rfl, fun r _ => rfl⟩
  | cons c rest ih =>
    obtain ⟨name, cr⟩ := c
    unfold flagRewriteHeap at hok
    by_cases hdm : pyIn "DM" name = true
    · simp only [hdm, if_pos] at hok
      rcases hfv : strReq (readRef h cr) "flag_values" with e | fv
      · rw [hfv] at hok
        simp only [bind, Except.bind] at hok
        exact Except.noConfusion hok
      · rw [hfv] at hok
        simp only [bind, Except.bind] at hok
        rcases ih _ hok with ⟨hl, hfr⟩
        constructor
        · rw [hl, writeRef, List.length_set]
        · intro r hr
          rw [hfr r (fun d hd => hr d (List.mem_cons_of_mem _ hd))]
          exact readRef_writeRef_ne _ _ _ _
            (fun hh => (hr (name, cr) (List.mem_cons_self _ _)) hh.symm)
    · simp only [hdm, Bool.false_eq_true, if_neg, if_false] at hok
      rcases ih _ hok with ⟨hl, hfr⟩
      exact ⟨hl, fun r hr => hfr r (fun d hd => hr d (List.mem_cons_of_mem _ hd))⟩

theorem stationHeap_frame (pn : List String) (pvars : List (String × ℕ)) (gRef : ℕ)
    (st : StationCtx) (dtnow : String) (h h' : Heap) (cg : ℕ)
    (hok : stationHeap pn pvars gRef st dtnow h = .ok (h', cg)) :
    h.length ≤ h'.length ∧
    (∀ r, r < h.length → readRef h' r = readRef h r) ∧
    (gRef < h.length → ((readRef h gRef).map Prod.fst).Nodup →
      getAttr (readRef h' cg) "doi" = none) := by
  unfold stationHeap at hok
  rcases hvars : childVarDictsHeap pn pvars h with e | ⟨h1, childRefs⟩
  · rw [hvars] at hok
    simp only [bind, Except.bind] at hok
    exact Except.noConfusion hok
  · rw [hvars] at hok
    simp only [bind, Except.bind, allocRef] at hok
    rcases hga : assign_global_attributes (readRef h1 gRef) st dtnow with e | ga
    · rw [hga] at hok
      exact Except.noConfusion hok
    · rw [hga] at hok
      simp only [bind, Except.bind] at hok
      rcases hflag : flagRewriteHeap childRefs
          (writeRef (h1 ++ [readRef h1 gRef]) h1.length ga) with e | h4
      · rw [hflag] at hok
        exact Except.noConfusion hok
      · rw [hflag] at hok
        simp only [pure, Except.pure, Except.ok.injEq, Prod.mk.injEq] at hok
        rcases hok with ⟨hh4, hcg⟩
        subst hh4
        subst hcg
        rcases childVarDictsHeap_frame pn pvars h h1 childRefs hvars with
          ⟨hl1, hfr1, hcrs1⟩
        rcases flagRewriteHeap_frame childRefs _ _ hflag with ⟨hl4, hfr4⟩
        have hl3 : (writeRef (h1 ++ [readRef h1 gRef]) h1.length ga).length
            = h1.length + 1 := by
          rw [writeRef, List.length_set, List.length_append]
          rfl
        refine ⟨by omega, ?_, ?_⟩
        · intro r hr
          rw [hfr4 r (fun c hc => by
            have := hcrs1 c hc
            omega)]
          rw [readRef_writeRef_ne _ _ _ _ (by omega)]
          rw [readRef_append_lt _ _ _ (by omega)]
          exact hfr1 r hr
        · intro hg hnd
          rw [hfr4 h1.length (fun c hc => by
            have := hcrs1 c hc
            omega)]
          have hw := readRef_writeRef_self (h1 ++ [readRef h1 gRef]) h1.length ga
            (by simp)
          rw [hw]
          refine assign_global_doi_none _ st dtnow ga hga ?_
          rw [hfr1 gRef hg]
          exact hnd

theorem stationsHeapLoop_frame (pn : List String) (pvars : List (String × ℕ))
    (gRef : ℕ) (dtnow : String) (sts : List StationCtx) (h h' : Heap)
    (hok : stationsHeapLoop pn pvars gRef dtnow sts h = .ok h') :
    h.length ≤ h'.length ∧ ∀ r, r < h.length → readRef h' r = readRef h r := by
  induction sts generalizing h with
  | nil =>
    unfold stationsHeapLoop at hok
    cases hok
    exact ⟨le_refl _, fun r _ => rfl⟩
  | cons st sts ih =>
    unfold stationsHeapLoop at hok
    rcases hst : stationHeap pn pvars gRef st dtnow h with e | ⟨h1, cg⟩
    · rw [hst] at hok
      simp only [bind, Except.bind] at hok
      exact Except.noConfusion hok
    · rw [hst] at hok
      simp only [bind, Except.bind] at hok
      rcases stationHeap_frame pn pvars gRef st dtnow h h1 cg hst with ⟨hl1, hfr1, _⟩
      rcases ih _ hok with ⟨hl2, hfr2⟩
      exact ⟨by omega, fun r hr => by rw [hfr2 r (by omega), hfr1 r hr]⟩

theorem pySplit_cons (sep c : Char) (cs : List Char) :
    pySplit sep (c :: cs) =
      if c = sep then [] :: pySplit sep cs
      else
        match pySplit sep cs with
        | t :: ts => (c :: t) :: ts
        | [] => [[c]] := rfl

theorem removeOcc_single (c : Char) (l : List Char) :
    removeOcc [c] l = l.filter (fun d => d != c) := by
  induction l with
  | nil => rfl
  | cons d ds ih =>
    rw [removeOcc_cons]
    by_cases hdc : d = c
    · have hcond : (([c] : List Char) ≠ [] ∧ ([c] : List Char).isPrefixOf (d :: ds)) := by
        refine ⟨by simp, ?_⟩
        simp [List.isPrefixOf, hdc]
      rw [if_pos hcond]
      have hbne : (d != c) = false := by simp [bne, hdc]
      simp only [List.filter_cons, hbne, Bool.false_eq_true, if_false]
      simpa using ih
    · have hcond : ¬ (([c] : List Char) ≠ [] ∧ ([c] : List Char).isPrefixOf (d :: ds)) := by
        intro hc
        have := hc.2
        simp [List.isPrefixOf] at this
        exact hdc this.symm
      rw [if_neg hcond, ih]
      have hbne : (d != c) = true := by simpa [bne_iff_ne] using hdc
      simp [List.filter_cons, hbne]

theorem pySplit_filter (sep c : Char) (hne : sep ≠ c) (l : List Char) :
    pySplit sep (l.filter (fun d => d != c)) =
      (pySplit sep l).map (fun t => t.filter (fun d => d != c)) := by
  induction l with
  | nil => rfl
  | cons d ds ih =>
    by_cases hds : d = sep
    · have hdc : d ≠ c := fun hh => hne (hds ▸ hh)
      have hbne : (d != c) = true := by simpa [bne_iff_ne] using hdc
      rw [List.filter_cons, hbne, if_pos rfl, pySplit_cons, pySplit_cons,
        if_pos hds, if_pos hds, ih, List.map_cons]
      rfl
    · by_cases hdc : d = c
      · have hbne : (d != c) = false := by simp [bne, hdc]
        rw [List.filter_cons, hbne, if_neg (by simp), ih, pySplit_cons, if_neg hds]
        rcases hs : pySplit sep ds with _ | ⟨t, ts⟩
        · exact absurd hs (pySplit_ne_nil sep ds)
        · simp [hs, hbne, List.filter_cons]
      · have hbne : (d != c) = true := by simpa [bne_iff_ne] using hdc
        rw [List.filter_cons, hbne, if_pos rfl, pySplit_cons, pySplit_cons,
          if_neg hds, if_neg hds, ih]
        rcases hs : pySplit sep ds with _ | ⟨t, ts⟩
        · exact absurd hs (pySplit_ne_nil sep ds)
        · simp [hs, hbne, List.filter_cons]

/-- What the claim's wording describes for `flag_values`: split the original
string on commas, then strip characters from each token. -/
def splitThenStrip (strip : Char → Bool) (s : String) : List String :=
  (pySplit ',' s.data).map (fun t => String.mk (t.filter (fun d => !(strip d))))

theorem flagTokens_spec (s : String) :
    flagTokens s = splitThenStrip (fun d => d == ' ') s := by
  unfold flagTokens splitThenStrip
  rw [removeOcc_single, pySplit_filter ',' ' ' (by decide), List.map_map]
  refine List.map_congr_left fun t ht => ?_
  simp [Function.comp]
  rfl

theorem getReq_ok (d : Attrs) (k : String) (v : AttrVal) :
    getReq d k = .ok v ↔ getAttr d k = some v := by
  unfold getReq
  rcases hg : getAttr d k with _ | w
  · simp
  · simp

theorem strReq_ok (d : Attrs) (k : String) (s : String) :
    strReq d k = .ok s ↔ getAttr d k = some (.str s) := by
  unfold strReq
  rcases hg : getAttr d k with _ | w
  · simp
  · cases w with
    | str t => simp
    | num q => simp
    | strArr l => simp

theorem delReq_ok (d : Attrs) (k : String) (a' : Attrs) :
    delReq d k = .ok a' ↔ (getAttr d k).isSome ∧ a' = delAttr d k := by
  unfold delReq
  rcases hg : getAttr d k with _ | w
  · simp
  · simp [eq_comm]

/-- If the one-time global repair succeeds, every attribute it reads or
deletes was present in the input dictionary. -/
theorem repair_ok_present (a b : Attrs)
    (h : add_change_drop_gloabl_attributes a = .ok b) :
    ∀ k ∈ requiredGlobalKeys, (getAttr a k).isSome := by
  unfold add_change_drop_gloabl_attributes at h
  dsimp only at h
  set a1 := setAttr a "project" (.str "The Nansen Legacy Project (RCN # 276730)") with ha1
  rcases h1 : getReq a1 "doi" with e | doi
  · rw [h1] at h
    simp only [bind, Except.bind] at h
    exact Except.noConfusion h
  rw [h1] at h
  simp only [bind, Except.bind] at h
  set a2 := setAttr a1 "acknowledgement" (.str (ackSentence doi.render)) with ha2
  rcases h2 : strReq a2 "summary" with e | summ
  · rw [h2] at h
    exact Except.noConfusion h
  rw [h2] at h
  simp only [bind, Except.bind] at h
  set a3 := setAttr a2 "summary" (.str (summ ++ summarySentenceLiteral)) with ha3
  rcases h3 : strReq a3 "doi" with e | doi2
  · rw [h3] at h
    exact Except.noConfusion h
  rw [h3] at h
  simp only [bind, Except.bind] at h
  set a4 := setAttr a3 "references" (.str ("https://doi.org/" ++ doi2)) with ha4
  set a5 := setAttr a4 "naming_authority" (.str "no.unis") with ha5
  rcases h4 : getReq a5 "creator_name" with e | cn
  · rw [h4] at h
    exact Except.noConfusion h
  rw [h4] at h
  simp only [bind, Except.bind] at h
  set a6 := setAttr a5 "creator_institution" cn with ha6
  rcases h5 : getReq a6 "creator_name" with e | cn2
  · rw [h5] at h
    exact Except.noConfusion h
  rw [h5] at h
  simp only [bind, Except.bind] at h
  set a7 := setAttr a6 "publisher_name" cn2 with ha7
  set a8 := setAttr a7 "creator_email" (.str "datahjelp@imr.no") with ha8
  rcases h6 : getReq a8 "creator_email" with e | ce
  · rw [h6] at h
    exact Except.noConfusion h
  rw [h6] at h
  simp only [bind, Except.bind] at h
  set a9 := setAttr a8 "publisher_email" ce with ha9
  rcases h7 : getReq a9 "creator_url" with e | cu
  · rw [h7] at h
    exact Except.noConfusion h
  rw [h7] at h
  simp only [bind, Except.bind] at h
  set a10 := setAttr a9 "publisher_url" cu with ha10
  rcases h8 : delReq a10 "last_latitude_observation" with e | a11x
  · rw [h8] at h
    exact Except.noConfusion h
  rw [h8] at h
  simp only [bind, Except.bind] at h
  rw [delReq_ok] at h8
  rcases h8 with ⟨h8p, h8e⟩
  subst h8e
  set a11 := delAttr a10 "last_latitude_observation" with ha11
  rcases h9 : delReq a11 "last_longitude_observation" with e | a12x
  · rw [h9] at h
    exact Except.noConfusion h
  rw [h9] at h
  simp only [bind, Except.bind] at h
  rw [delReq_ok] at h9
  rcases h9 with ⟨h9p, h9e⟩
  subst h9e
  set a12 := delAttr a11 "last_longitude_observation" with ha12
  rcases h10 : delReq a12 "format_version" with e | a13x
  · rw [h10] at h
    exact Except.noConfusion h
  rw [h10] at h
  simp only [bind, Except.bind] at h
  rw [delReq_ok] at h10
  rcases h10 with ⟨h10p, h10e⟩
  subst h10e
  set a13 := delAttr a12 "format_version" with ha13
  rcases h11 : delReq a13 "last_date_observation" with e | a14x
  · rw [h11] at h
    exact Except.noConfusion h
  rw [delReq_ok] at h11
  rcases h11 with ⟨h11p, _⟩
  rw [getReq_ok] at h1 h4 h5 h6 h7
  rw [strReq_ok] at h3
  intro k hk
  simp only [requiredGlobalKeys, unwanted_atts, List.cons_append, List.nil_append,
    List.mem_cons, List.not_mem_nil, or_false] at hk
  rcases hk with rfl | rfl | rfl | rfl | rfl | rfl | rfl
  · rw [ha1] at h1
    rw [getAttr_setAttr_ne _ _ _ _ (by decide)] at h1
    simp [h1]
  · rw [ha6, ha5, ha4, ha3, ha2, ha1] at h5
    rw [getAttr_setAttr_ne _ _ _ _ (by decide),
      getAttr_setAttr_ne _ _ _ _ (by decide),
      getAttr_setAttr_ne _ _ _ _ (by decide),
      getAttr_setAttr_ne _ _ _ _ (by decide),
      getAttr_setAttr_ne _ _ _ _ (by decide),
      getAttr_setAttr_ne _ _ _ _ (by decide)] at h5
    simp [h5]
  · rw [ha9, ha8, ha7, ha6, ha5, ha4, ha3, ha2, ha1] at h7
    rw [getAttr_setAttr_ne _ _ _ _ (by decide),
      getAttr_setAttr_ne _ _ _ _ (by decide),
      getAttr_setAttr_ne _ _ _ _ (by decide),
      getAttr_setAttr_ne _ _ _ _ (by decide),
      getAttr_setAttr_ne _ _ _ _ (by decide),
      getAttr_setAttr_ne _ _ _ _ (by decide),
      getAttr_setAttr_ne _ _ _ _ (by decide),
      getAttr_setAttr_ne _ _ _ _ (by decide),
      getAttr_setAttr_ne _ _ _ _ (by decide)] at h7
    simp [h7]
  · rw [ha10, ha9, ha8, ha7, ha6, ha5, ha4, ha3, ha2, ha1] at h8p
    rw [getAttr_setAttr_ne _ _ _ _ (by decide),
      getAttr_setAttr_ne _ _ _ _ (by decide),
      getAttr_setAttr_ne _ _ _ _ (by decide),
      getAttr_setAttr_ne _ _ _ _ (by decide),
      getAttr_setAttr_ne _ _ _ _ (by decide),
      getAttr_setAttr_ne _ _ _ _ (by decide),
      getAttr_setAttr_ne _ _ _ _ (by decide),
      getAttr_setAttr_ne _ _ _ _ (by decide),
      getAttr_setAttr_ne _ _ _ _ (by decide),
      getAttr_setAttr_ne _ _ _ _ (by decide)] at h8p
    exact h8p
  · rw [ha11, ha10, ha9, ha8, ha7, ha6, ha5, ha4, ha3, ha2, ha1] at h9p
    rw [getAttr_delAttr_ne _ _ _ (by decide),
      getAttr_setAttr_ne _ _ _ _ (by decide),
      getAttr_setAttr_ne _ _ _ _ (by decide),
      getAttr_setAttr_ne _ _ _ _ (by decide),
      getAttr_setAttr_ne _ _ _ _ (by decide),
      getAttr_setAttr_ne _ _ _ _ (by decide),
      getAttr_setAttr_ne _ _ _ _ (by decide),
      getAttr_setAttr_ne _ _ _ _ (by decide),
      getAttr_setAttr_ne _ _ _ _ (by decide),
      getAttr_setAttr_ne _ _ _ _ (by decide),
      getAttr_setAttr_ne _ _ _ _ (by decide)] at h9p
    exact h9p
  · rw [ha12, ha11, ha10, ha9, ha8, ha7, ha6, ha5, ha4, ha3, ha2, ha1] at h10p
    rw [getAttr_delAttr_ne _ _ _ (by decide),
      getAttr_delAttr_ne _ _ _ (by decide),
      getAttr_setAttr_ne _ _ _ _ (by decide),
      getAttr_setAttr_ne _ _ _ _ (by decide),
      getAttr_setAttr_ne _ _ _ _ (by decide),
      getAttr_setAttr_ne _ _ _ _ (by decide),
      getAttr_setAttr_ne _ _ _ _ (by decide),
      getAttr_setAttr_ne _ _ _ _ (by decide),
      getAttr_setAttr_ne _ _ _ _ (by decide),
      getAttr_setAttr_ne _ _ _ _ (by decide),
      getAttr_setAttr_ne _ _ _ _ (by decide),
      getAttr_setAttr_ne _ _ _ _ (by decide)] at h10p
    exact h10p
  · rw [ha13, ha12, ha11, ha10, ha9, ha8, ha7, ha6, ha5, ha4, ha3, ha2, ha1] at h11p
    rw [getAttr_delAttr_ne _ _ _ (by decide),
      getAttr_delAttr_ne _ _ _ (by decide),
      getAttr_delAttr_ne _ _ _ (by decide),
      getAttr_setAttr_ne _ _ _ _ (by decide),
      getAttr_setAttr_ne _ _ _ _ (by decide),
      getAttr_setAttr_ne _ _ _ _ (by decide),
      getAttr_setAttr_ne _ _ _ _ (by decide),
      getAttr_setAttr_ne _ _ _ _ (by decide),
      getAttr_setAttr_ne _ _ _ _ (by decide),
      getAttr_setAttr_ne _ _ _ _ (by decide),
      getAttr_setAttr_ne _ _ _ _ (by decide),
      getAttr_setAttr_ne _ _ _ _ (by decide),
      getAttr_setAttr_ne _ _ _ _ (by decide)] at h11p
    exact h11p

/-! ### Concrete archives used by the witnesses and counterexamples -/

def exPres : DataVar :=
  { name := "PRES", ndims := 2, rows := [[0, 10, 5]], attrs := [] }

def exTemp : DataVar :=
  { name := "TEMP", ndims := 2, rows := [[1, 2, 3]],
    attrs := [("valid_min", .num 100), ("valid_max", .num 200),
              ("ancillary_variables", .str "TEMP_QC TEMP_XX")] }

def exTempQC : DataVar :=
  { name := "TEMP_QC", ndims := 1, rows := [], attrs := [] }

def exParentA : ParentData :=
  { data_vars := [exPres, exTemp, exTempQC]
    attrs := [("doi", .str "10.21335/X"), ("id", .str "AR58GS"), ("summary", .str "S")]
    latitudes := [78]
    longitudes := [34]
    times := ["2020-10-20T07:35:31"]
    positions := [0] }

def exPresDesc : DataVar :=
  { name := "PRES", ndims := 2, rows := [[30, 20, 10]], attrs := [] }

def exTempDesc : DataVar :=
  { name := "TEMP", ndims := 2, rows := [[1, 2, 3]], attrs := [] }

def exParentDesc : ParentData :=
  { data_vars := [exPresDesc, exTempDesc]
    attrs := []
    latitudes := [0]
    longitudes := [0]
    times := [""]
    positions := [0] }

def exCube : DataVar :=
  { name := "CUBE", ndims := 3, rows := [], attrs := [] }

def exParent3D : ParentData :=
  { data_vars := [exPres, exCube]
    attrs := []
    latitudes := [0]
    longitudes := [0]
    times := [""]
    positions := [0] }

def exParentNoDoi : ParentData :=
  { data_vars := [exPres]
    attrs := [("id", .str "AR58GS"), ("summary", .str "S"),
              ("creator_name", .str "IMR"), ("creator_url", .str "imr.no")]
    latitudes := [0]
    longitudes := [0]
    times := [""]
    positions := [0] }

/-! ### The claims -/

/-- C1: For every station, extraction locates the valid window as
`i_min` = the first-occurrence index of the station's minimum pressure value
in that station's raw pressure row and `i_max` = the first-occurrence index
of its maximum pressure value, and every carried-over 2-D variable's row is
sliced to the half-open range `[i_min, i_max)`: the produced values are
exactly the row elements at indices `i_min + k` for `k < i_max - i_min`, so
the sample at index `i_max` itself is excluded from the output. -/
theorem C1_window_first_occurrence_halfopen (p : ParentData) (pos : ℕ)
    (pv : DataVar)
    (hpres : findVar p "PRES" = some pv) (hpv2 : pv.ndims = 2)
    (hall : ∀ v ∈ p.data_vars, v.ndims ≤ 2)
    (hsafe : ∀ v ∈ p.data_vars, v.ndims = 2 →
      (repairVarAttrs v.name v.attrs).isOk = true)
    (hnd : (p.data_vars.map DataVar.name).Nodup)
    (hne : stationPressures p pos ≠ [])
    (v : DataVar) (hv : v ∈ p.data_vars) (hv2 : v.ndims = 2)
    (hlen : (v.rows.getD pos []).length = (stationPressures p pos).length) :
    ∃ ch' vals a,
      create_dataset_with_variables p pos = .ok ch' ∧
      lookupChild ch' v.name = some (v.name, vals, a) ∧
      iMin p pos < (stationPressures p pos).length ∧
      (stationPressures p pos).getD (iMin p pos) 0 = rowMin (stationPressures p pos) ∧
      (∀ j, j < iMin p pos →
        (stationPressures p pos).getD j 0 ≠ rowMin (stationPressures p pos)) ∧
      iMax p pos < (stationPressures p pos).length ∧
      (stationPressures p pos).getD (iMax p pos) 0 = rowMax (stationPressures p pos) ∧
      (∀ j, j < iMax p pos →
        (stationPressures p pos).getD j 0 ≠ rowMax (stationPressures p pos)) ∧
      vals.length = iMax p pos - iMin p pos ∧
      (∀ k, k < vals.length → iMin p pos + k < iMax p pos ∧
        vals[k]? = (v.rows.getD pos [])[iMin p pos + k]?) := by
  rcases create_dataset_char p pos pv hpres hpv2 hall hsafe hnd with
    ⟨ch', hok, _, hlook⟩
  set P := stationPressures p pos with hP
  have hminmem : rowMin P ∈ P := rowMin_mem P hne
  have hmaxmem : rowMax P ∈ P := rowMax_mem P hne
  have hminlt : iMin p pos < P.length := List.indexOf_lt_length.mpr hminmem
  have hmaxlt : iMax p pos < P.length := List.indexOf_lt_length.mpr hmaxmem
  refine ⟨ch', pySlice (v.rows.getD pos []) (iMin p pos) (iMax p pos),
    finalVarAttrs (parentNames p) v, hok, hlook v hv hv2, hminlt, ?_, ?_, hmaxlt,
    ?_, ?_, ?_, ?_⟩
  · rw [List.getD_eq_getElem P 0 hminlt]
    exact List.getElem_indexOf hminlt
  · intro j hj
    have hjl : j < P.length := lt_trans hj hminlt
    rw [List.getD_eq_getElem P 0 hjl]
    exact get_ne_of_lt_indexOf P (rowMin P) j hj hjl
  · rw [List.getD_eq_getElem P 0 hmaxlt]
    exact List.getElem_indexOf hmaxlt
  · intro j hj
    have hjl : j < P.length := lt_trans hj hmaxlt
    rw [List.getD_eq_getElem P 0 hjl]
    exact get_ne_of_lt_indexOf P (rowMax P) j hj hjl
  · rw [pySlice_length, hlen, min_eq_left (le_of_lt hmaxlt)]
  · intro k hk
    rw [pySlice_length, hlen, min_eq_left (le_of_lt hmaxlt)] at hk
    have hik : iMin p pos + k < iMax p pos := by omega
    exact ⟨hik, pySlice_getElem? _ _ _ _ hik⟩

/-- C1 witness: the theorem applied to a concrete archive with pressure row
`[0, 10, 5]`, so `i_min = 0`, `i_max = 1`, and one sample is kept. -/
theorem C1_witness :
    ∃ ch' vals a,
      create_dataset_with_variables exParentA 0 = .ok ch' ∧
      lookupChild ch' "TEMP" = some ("TEMP", vals, a) ∧
      vals.length = iMax exParentA 0 - iMin exParentA 0 := by
  rcases C1_window_first_occurrence_halfopen exParentA 0 exPres (by decide)
      (by decide) (by decide) (by decide) (by decide) (by decide) exTemp
      (by decide) (by decide) (by decide) with
    ⟨ch', vals, a, h1, h2, _, _, _, _, _, _, h9, _⟩
  exact ⟨ch', vals, a, h1, h2, h9⟩

/-- C10: when the first occurrence of the row maximum comes strictly before
the first occurrence of the row minimum (`i_max < i_min`, e.g. a
monotonically descending pressure row), the half-open slice is empty:
extraction succeeds and every carried-over variable is zero-length. -/
theorem C10_descending_profile_empty (p : ParentData) (pos : ℕ) (pv : DataVar)
    (hpres : findVar p "PRES" = some pv) (hpv2 : pv.ndims = 2)
    (hall : ∀ v ∈ p.data_vars, v.ndims ≤ 2)
    (hsafe : ∀ v ∈ p.data_vars, v.ndims = 2 →
      (repairVarAttrs v.name v.attrs).isOk = true)
    (hnd : (p.data_vars.map DataVar.name).Nodup)
    (hdesc : iMax p pos < iMin p pos) :
    ∃ ch', create_dataset_with_variables p pos = .ok ch' ∧
      ∀ e ∈ ch', e.2.1 = [] := by
  rcases create_dataset_char p pos pv hpres hpv2 hall hsafe hnd with
    ⟨ch', hok, hshape, _⟩
  refine ⟨ch', hok, ?_⟩
  intro e he
  have hmem : (e.1, e.2.1) ∈ ch'.map (fun e => (e.1, e.2.1)) :=
    List.mem_map_of_mem _ he
  rw [hshape] at hmem
  rcases List.mem_map.mp hmem with ⟨w, _, hw⟩
  have : e.2.1 = pySlice (w.rows.getD pos []) (iMin p pos) (iMax p pos) := by
    have := congrArg Prod.snd hw
    simpa using this.symm
  rw [this]
  have hlen : (pySlice (w.rows.getD pos []) (iMin p pos) (iMax p pos)).length = 0 := by
    rw [pySlice_length]
    omega
  exact List.eq_nil_of_length_eq_zero hlen

/-- C10 witness: the theorem applied to a descending pressure row
`[30, 20, 10]` (`i_max = 0 < 2 = i_min`). -/
theorem C10_witness :
    ∃ ch', create_dataset_with_variables exParentDesc 0 = .ok ch' ∧
      ∀ e ∈ ch', e.2.1 = [] :=
  C10_descending_profile_empty exParentDesc 0 exPresDesc (by decide) (by decide)
    (by decide) (by decide) (by decide) (by decide)

/-- C6: during extraction, a data variable with more than 2 dimensions
aborts the run with a fatal error whose message names an offending variable,
and every data variable with fewer than 2 dimensions is skipped: it does not
appear among the station output's variables. -/
theorem C6_dimension_rules (p : ParentData) (pos : ℕ) (pv : DataVar)
    (hpres : findVar p "PRES" = some pv) :
    ((∃ v ∈ p.data_vars, 2 < v.ndims) →
      ∃ v ∈ p.data_vars, 2 < v.ndims ∧
        create_dataset_with_variables p pos = .error (exitMsg v.name)) ∧
    (pv.ndims = 2 →
      (∀ v ∈ p.data_vars, v.ndims ≤ 2) →
      (∀ v ∈ p.data_vars, v.ndims = 2 →
        (repairVarAttrs v.name v.attrs).isOk = true) →
      (p.data_vars.map DataVar.name).Nodup →
      ∃ ch', create_dataset_with_variables p pos = .ok ch' ∧
        ∀ v ∈ p.data_vars, v.ndims < 2 → v.name ∉ ch'.map (fun e => e.1)) := by
  constructor
  · intro hbad
    rcases sliceLoop_error pos (iMin p pos) (iMax p pos) p.data_vars hbad with
      ⟨v, hv, hvbad, herr⟩
    refine ⟨v, hv, hvbad, ?_⟩
    unfold create_dataset_with_variables
    rw [hpres]
    simp only [bind, Except.bind, herr, pure, Except.pure]
  · intro hpv2 hall hsafe hnd
    rcases create_dataset_char p pos pv hpres hpv2 hall hsafe hnd with
      ⟨ch', hok, hshape, _⟩
    refine ⟨ch', hok, ?_⟩
    intro v hv hvlt hmem
    have hnames : ch'.map (fun e => e.1) =
        (p.data_vars.filter (fun w => w.ndims == 2)).map DataVar.name := by
      have := congrArg (List.map Prod.fst) hshape
      rw [List.map_map, List.map_map] at this
      exact this
    rw [hnames] at hmem
    rcases List.mem_map.mp hmem with ⟨w, hwf, hwname⟩
    have hw2 : w.ndims = 2 := by
      have := (List.mem_filter.mp hwf).2
      simpa using this
    have hvw : v = w :=
      List.inj_on_of_nodup_map hnd hv (List.mem_filter.mp hwf).1 hwname.symm
    rw [hvw] at hvlt
    omega

/-- C6 witness: a concrete archive with a 3-dimensional variable `CUBE`
aborts extraction with a message naming it. -/
theorem C6_witness :
    ∃ v ∈ exParent3D.data_vars, 2 < v.ndims ∧
      create_dataset_with_variables exParent3D 0 = .error (exitMsg v.name) :=
  (C6_dimension_rules exParent3D 0 exPres (by decide)).1
    ⟨exCube, by decide, by decide⟩

theorem getAttr_finalVarAttrs_ne (pn : List String) (v : DataVar) (k : String)
    (hk : k ≠ "ancillary_variables") :
    getAttr (finalVarAttrs pn v) k = getAttr (repairedVarAttrs v.name v.attrs) k := by
  unfold finalVarAttrs
  rcases hg : getAttr v.attrs "ancillary_variables" with _ | val
  · rfl
  · cases val with
    | str s => exact getAttr_ancFold_ne pn _ _ k hk
    | num q => rfl
    | strArr l => rfl

/-- C4: for every carried-over variable whose name contains neither `'QC'`
nor `'DM'`, the child's `coverage_content_type` is `'physicalMeasurement'`,
and when the parent declares a numeric `valid_min` (resp. `valid_max`) the
child's value is the parent's multiplied by `0.001`. -/
theorem C4_physical_measurement_scaling (p : ParentData) (pos : ℕ)
    (pv : DataVar)
    (hpres : findVar p "PRES" = some pv) (hpv2 : pv.ndims = 2)
    (hall : ∀ v ∈ p.data_vars, v.ndims ≤ 2)
    (hsafe : ∀ v ∈ p.data_vars, v.ndims = 2 →
      (repairVarAttrs v.name v.attrs).isOk = true)
    (hnd : (p.data_vars.map DataVar.name).Nodup)
    (v : DataVar) (hv : v ∈ p.data_vars) (hv2 : v.ndims = 2)
    (hqc : pyIn "QC" v.name = false) (hdm : pyIn "DM" v.name = false) :
    ∃ ch' vals a,
      create_dataset_with_variables p pos = .ok ch' ∧
      lookupChild ch' v.name = some (v.name, vals, a) ∧
      getAttr a "coverage_content_type" = some (.str "physicalMeasurement") ∧
      (∀ q : ℚ, getAttr v.attrs "valid_min" = some (.num q) →
        getAttr a "valid_min" = some (.num (q * 0.001))) ∧
      (∀ q : ℚ, getAttr v.attrs "valid_max" = some (.num q) →
        getAttr a "valid_max" = some (.num (q * 0.001))) := by
  rcases create_dataset_char p pos pv hpres hpv2 hall hsafe hnd with
    ⟨ch', hok, _, hlook⟩
  refine ⟨ch', _, finalVarAttrs (parentNames p) v, hok, hlook v hv hv2, ?_, ?_, ?_⟩
  · rw [getAttr_finalVarAttrs_ne _ _ _ (by decide)]
    exact getAttr_repairedVarAttrs_cov v.name v.attrs hqc hdm
  · intro q hq
    rw [getAttr_finalVarAttrs_ne _ _ _ (by decide)]
    exact getAttr_repairedVarAttrs_vmin v.name v.attrs q hqc hdm hq
  · intro q hq
    rw [getAttr_finalVarAttrs_ne _ _ _ (by decide)]
    exact getAttr_repairedVarAttrs_vmax v.name v.attrs q hqc hdm hq

/-- C4 witness: applied to the concrete `TEMP` variable with
`valid_min = 100`, `valid_max = 200`; the child carries `0.1` and `0.2`. -/
theorem C4_witness :
    ∃ ch' vals a,
      create_dataset_with_variables exParentA 0 = .ok ch' ∧
      lookupChild ch' "TEMP" = some ("TEMP", vals, a) ∧
      getAttr a "coverage_content_type" = some (.str "physicalMeasurement") ∧
      getAttr a "valid_min" = some (.num (100 * 0.001)) ∧
      getAttr a "valid_max" = some (.num (200 * 0.001)) := by
  rcases C4_physical_measurement_scaling exParentA 0 exPres (by decide) (by decide)
      (by decide) (by decide) (by decide) exTemp (by decide) (by decide)
      (by decide) (by decide) with ⟨ch', vals, a, h1, h2, h3, h4, h5⟩
  exact ⟨ch', vals, a, h1, h2, h3, h4 100 (by decide), h5 200 (by decide)⟩

/-- C2 counterexample: in `exParentA`, `TEMP` declares
`ancillary_variables = "TEMP_QC TEMP_XX"`.  `TEMP_QC` is a 1-D parent
variable, so it is NOT carried into the child (the child's variables are
exactly `PRES` and `TEMP`), yet its reference survives in the child's
`ancillary_variables` string: the membership test of source line 234 is
against the PARENT's variable list, not the carried-over set, refuting the
claim as stated.  (`TEMP_XX`, which is no parent variable, is removed.) -/
theorem C2_counterexample :
    ((create_dataset_with_variables exParentA 0).toOption.map
      (fun ch => ch.map (fun e => e.1))) = some ["PRES", "TEMP"] ∧
    ((create_dataset_with_variables exParentA 0).toOption.bind
      (fun ch => lookupChild ch "TEMP")).map
        (fun e => getAttr e.2.2 "ancillary_variables") =
      some (some (.str "TEMP_QC ")) ∧
    pyIn "TEMP_QC" "TEMP_QC " = true := by
  refine ⟨?_, ?_, by decide⟩
  · decide
  · decide

/-- C2 as amended: for every carried-over variable with an
`ancillary_variables` string, each space-separated token that is not the
name of a PARENT data variable is removed from the child's string by
substring replacement, tokens processed left to right; tokens naming parent
data variables trigger no removal, even when the named variable is not
carried into the child. -/
theorem C2_ancillary_parent_membership (p : ParentData) (pos : ℕ)
    (pv : DataVar)
    (hpres : findVar p "PRES" = some pv) (hpv2 : pv.ndims = 2)
    (hall : ∀ v ∈ p.data_vars, v.ndims ≤ 2)
    (hsafe : ∀ v ∈ p.data_vars, v.ndims = 2 →
      (repairVarAttrs v.name v.attrs).isOk = true)
    (hnd : (p.data_vars.map DataVar.name).Nodup)
    (v : DataVar) (hv : v ∈ p.data_vars) (hv2 : v.ndims = 2) (s : String)
    (hanc : getAttr v.attrs "ancillary_variables" = some (.str s)) :
    ∃ ch' vals a,
      create_dataset_with_variables p pos = .ok ch' ∧
      lookupChild ch' v.name = some (v.name, vals, a) ∧
      getAttr a "ancillary_variables" =
        some (.str (specAncillaryClean (parentNames p) s)) := by
  rcases create_dataset_char p pos pv hpres hpv2 hall hsafe hnd with
    ⟨ch', hok, _, hlook⟩
  refine ⟨ch', _, finalVarAttrs (parentNames p) v, hok, hlook v hv hv2, ?_⟩
  unfold finalVarAttrs
  rw [hanc]
  have hrep : getAttr (repairedVarAttrs v.name v.attrs) "ancillary_variables" =
      some (.str s) := by
    rw [getAttr_repairedVarAttrs_anc]
    exact hanc
  rw [ancFold_value _ _ _ s hrep]
  rfl

/-- C2 witness for the amended claim: `"TEMP_QC TEMP_XX"` cleans to
`"TEMP_QC "` because `TEMP_QC` names a parent variable and `TEMP_XX` does
not. -/
theorem C2_witness :
    ∃ ch' vals a,
      create_dataset_with_variables exParentA 0 = .ok ch' ∧
      lookupChild ch' "TEMP" = some ("TEMP", vals, a) ∧
      getAttr a "ancillary_variables" =
        some (.str (specAncillaryClean (parentNames exParentA) "TEMP_QC TEMP_XX")) :=
  C2_ancillary_parent_membership exParentA 0 exPres (by decide) (by decide)
    (by decide) (by decide) (by decide) exTemp (by decide) (by decide)
    "TEMP_QC TEMP_XX" (by decide)

/-- A fully conforming parent attribute dictionary for the C3 evaluation. -/
def exC3Attrs : Attrs :=
  [("doi", .str "10.21335/NMDC-123"), ("summary", .str "Cruise summary."),
   ("creator_name", .str "IMR"), ("creator_url", .str "imr.no"),
   ("id", .str "AR58GS"),
   ("last_latitude_observation", .str "78"),
   ("last_longitude_observation", .str "34"),
   ("format_version", .str "1.4"), ("last_date_observation", .str "2020")]

/-- C3: evaluation of the repair at a conforming archive.  The
acknowledgement (source line 87, an f-string) does contain the archive's
`doi` value, but the summary (source line 88, NOT an f-string — the `f`
prefix is missing) does not: the literal text
`\x7bself.contents.attrs["doi"]\x7d` is appended instead.  This refutes the
claim for the summary attribute and shows the intended behaviour on the
acknowledgement. -/
theorem C3_summary_misses_doi :
    ((add_change_drop_gloabl_attributes exC3Attrs).toOption.bind
      (fun a => getAttr a "acknowledgement")).map
        (fun v => pyIn "10.21335/NMDC-123" v.render) = some true ∧
    ((add_change_drop_gloabl_attributes exC3Attrs).toOption.bind
      (fun a => getAttr a "summary")).map
        (fun v => pyIn "10.21335/NMDC-123" v.render) = some false ∧
    ((add_change_drop_gloabl_attributes exC3Attrs).toOption.bind
      (fun a => getAttr a "summary")).map
        (fun v => pyIn "\x7bself.contents.attrs[\"doi\"]\x7d" v.render) =
      some true := by
  refine ⟨?_, ?_, ?_⟩ <;> decide

/-- C5: if any global attribute the repair reads (`doi`, `creator_name`,
`creator_url`) or deletes (the four `unwanted_atts`) is absent from the
parent archive, the whole run for that archive fails before any station
output is produced: `main_run` returns an error and never an output list. -/
theorem C5_missing_attribute_aborts (p : ParentData) (dtnow : String)
    (k : String) (hk : k ∈ requiredGlobalKeys)
    (hmiss : getAttr p.attrs k = none) :
    (∃ e, main_run p dtnow = .error e) ∧
    ∀ out, main_run p dtnow ≠ .ok out := by
  have herr : ∃ e, main_run p dtnow = .error e := by
    rcases hrep : add_change_drop_gloabl_attributes p.attrs with e | a2
    · refine ⟨e, ?_⟩
      unfold main_run
      rw [hrep]
      rfl
    · exfalso
      have hp := repair_ok_present p.attrs a2 hrep k hk
      rw [hmiss] at hp
      simp at hp
  rcases herr with ⟨e, he⟩
  refine ⟨⟨e, he⟩, fun out hout => ?_⟩
  rw [he] at hout
  exact Except.noConfusion hout

/-- C5 witness: a parent archive without a `doi` global attribute aborts
before producing any station. -/
theorem C5_witness :
    (∃ e, main_run exParentNoDoi "2026-02-03T00:00:00Z" = .error e) ∧
    ∀ out, main_run exParentNoDoi "2026-02-03T00:00:00Z" ≠ .ok out :=
  C5_missing_attribute_aborts exParentNoDoi "2026-02-03T00:00:00Z" "doi"
    (by decide) (by decide)

/-- C7 counterexample: the source removes only space characters
(`.replace(' ','')`), not all whitespace.  For the original string
`"R,\tA"` the code produces the token `"\tA"`, which still contains
whitespace, while the claim's reading (all whitespace removed) would give
`"A"`. -/
theorem C7_counterexample :
    output_encode_var "TEMP_DM" [("flag_values", .str "R,\tA")] =
      .ok ([("flag_values", .strArr ["R", "\tA"])],
        ⟨"S1", some (.str " ")⟩) ∧
    splitThenStrip (fun d => d.isWhitespace) "R,\tA" = ["R", "A"] ∧
    (["R", "\tA"] : List String) ≠ ["R", "A"] := by
  refine ⟨rfl, by decide, by decide⟩

/-- C7 as amended: for every data-mode variable (name containing `'DM'`)
whose `flag_values` attribute is the string `s`, the write step replaces the
attribute by the array of the comma-separated tokens of `s`, in order, with
all SPACE characters (not all whitespace) removed, and encodes the variable
as single-byte characters with a space as the missing-value marker. -/
theorem C7_flag_rewrite (name : String) (a : Attrs) (s : String)
    (hdm : pyIn "DM" name = true)
    (hfv : getAttr a "flag_values" = some (.str s)) :
    output_encode_var name a =
      .ok (setAttr a "flag_values"
        (.strArr (splitThenStrip (fun d => d == ' ') s)),
        ⟨"S1", some (.str " ")⟩) := by
  have hnp : name ≠ "PRES" := by
    intro hh
    rw [hh] at hdm
    exact absurd hdm (by decide)
  unfold output_encode_var
  rw [if_neg hnp, if_pos hdm,
    show strReq a "flag_values" = .ok s from (strReq_ok a _ s).mpr hfv]
  simp only [bind, Except.bind, pure, Except.pure]
  rw [flagTokens_spec]

/-- C7 witness: `"R, A, D"` is rewritten to the array `["R", "A", "D"]`
with the `S1`/space encoding. -/
theorem C7_witness :
    output_encode_var "T_DM" [("flag_values", .str "R, A, D")] =
      .ok (setAttr [("flag_values", AttrVal.str "R, A, D")] "flag_values"
        (.strArr (splitThenStrip (fun d => d == ' ') "R, A, D")),
        ⟨"S1", some (.str " ")⟩) :=
  C7_flag_rewrite "T_DM" [("flag_values", .str "R, A, D")] "R, A, D"
    (by decide) (by decide)

/-- C9: the output-encoding classification is by substring with a fixed
precedence — exact name `PRES` first (float32, no fill), then `'DM'`
anywhere (char `S1`, space fill, even when `'QC'` also occurs), then `'QC'`
anywhere (int8, fill −127), else float32 with fill −2147483647 — and the
same substring tests decide the exemption from the `0.001` valid-range
scaling in the attribute-repair step. -/
theorem C9_encoding_cascade :
    (encodingFor "PRES" = ⟨"float32", none⟩) ∧
    (∀ n, n ≠ "PRES" → pyIn "DM" n = true →
      encodingFor n = ⟨"S1", some (.str " ")⟩) ∧
    (∀ n, n ≠ "PRES" → pyIn "DM" n = false → pyIn "QC" n = true →
      encodingFor n = ⟨"int8", some (.num (-127))⟩) ∧
    (∀ n, n ≠ "PRES" → pyIn "DM" n = false → pyIn "QC" n = false →
      encodingFor n = ⟨"float32", some (.num (-2147483647))⟩) ∧
    (∀ n (a : Attrs), (pyIn "QC" n = true ∨ pyIn "DM" n = true) →
      repairVarAttrs n a = .ok a) ∧
    (∀ n (a b : Attrs), pyIn "QC" n = false → pyIn "DM" n = false →
      repairVarAttrs n a = .ok b →
      (∀ q : ℚ, getAttr a "valid_min" = some (.num q) →
        getAttr b "valid_min" = some (.num (q * 0.001))) ∧
      (∀ q : ℚ, getAttr a "valid_max" = some (.num q) →
        getAttr b "valid_max" = some (.num (q * 0.001)))) := by
  refine ⟨by decide, ?_, ?_, ?_, ?_, ?_⟩
  · intro n hn hdm
    unfold encodingFor
    rw [if_neg hn, if_pos hdm]
  · intro n hn hdm hqc
    unfold encodingFor
    rw [if_neg hn, if_neg (by simp [hdm]), if_pos hqc]
  · intro n hn hdm hqc
    unfold encodingFor
    rw [if_neg hn, if_neg (by simp [hdm]), if_neg (by simp [hqc])]
  · intro n a h
    unfold repairVarAttrs
    by_cases hqc : pyIn "QC" n = true
    · rw [if_pos hqc]
    · rw [if_neg hqc]
      rcases h with h | h
      · exact absurd h hqc
      · rw [if_pos h]
  · intro n a b hqc hdm hok
    have hb := repairVarAttrs_ok_eq n a b hok
    subst hb
    exact ⟨fun q hq => getAttr_repairedVarAttrs_vmin n a q hqc hdm hq,
      fun q hq => getAttr_repairedVarAttrs_vmax n a q hqc hdm hq⟩

/-- C9 witness: a name containing both `'DM'` and `'QC'` takes the `'DM'`
branch; a `'QC'` name is exempt from scaling (its attributes pass through
unchanged). -/
theorem C9_witness :
    encodingFor "CNDC_DM_QC" = ⟨"S1", some (.str " ")⟩ ∧
    encodingFor "CNDC_QC" = ⟨"int8", some (.num (-127))⟩ ∧
    repairVarAttrs "CNDC_QC" [("valid_min", .num 5)] =
      .ok [("valid_min", .num 5)] := by
  refine ⟨?_, ?_, ?_⟩
  · exact C9_encoding_cascade.2.1 "CNDC_DM_QC" (by decide) (by decide)
  · exact C9_encoding_cascade.2.2.1 "CNDC_QC" (by decide) (by decide) (by decide)
  · exact C9_encoding_cascade.2.2.2.2.1 "CNDC_QC" _ (Or.inl (by decide))

/-- C8: on the reference-semantics heap, the station loop never modifies any
pre-existing dictionary: the parent's global attribute dictionary and every
parent variable's attribute dictionary read back unchanged after any number
of stations, the parent's `doi` entry in particular; and each single station
step builds its child's global dictionary as a fresh copy from which `doi`
is deleted while the parent's dictionary keeps it. -/
theorem C8_parent_dicts_unchanged (pn : List String)
    (pvars : List (String × ℕ)) (gRef : ℕ) (dtnow : String)
    (sts : List StationCtx) (h h' : Heap)
    (hrun : stationsHeapLoop pn pvars gRef dtnow sts h = .ok h')
    (hg : gRef < h.length) :
    (∀ r, r < h.length → readRef h' r = readRef h r) ∧
    (∀ nr ∈ pvars, nr.2 < h.length → readRef h' nr.2 = readRef h nr.2) ∧
    getAttr (readRef h' gRef) "doi" = getAttr (readRef h gRef) "doi" ∧
    (∀ (h0 : Heap) (st : StationCtx) (h4 : Heap) (cg : ℕ),
      gRef < h0.length →
      ((readRef h0 gRef).map Prod.fst).Nodup →
      stationHeap pn pvars gRef st dtnow h0 = .ok (h4, cg) →
      getAttr (readRef h4 cg) "doi" = none ∧
      readRef h4 gRef = readRef h0 gRef) := by
  rcases stationsHeapLoop_frame pn pvars gRef dtnow sts h h' hrun with ⟨_, hfr⟩
  refine ⟨hfr, fun nr _ hlt => hfr nr.2 hlt, by rw [hfr gRef hg], ?_⟩
  intro h0 st h4 cg hg0 hnd0 hok0
  rcases stationHeap_frame pn pvars gRef st dtnow h0 h4 cg hok0 with
    ⟨_, hfr0, hdoi0⟩
  exact ⟨hdoi0 hg0 hnd0, hfr0 gRef hg0⟩

/-- Heap and station context used by the C8 witness. -/
def exHeap : Heap :=
  [[("doi", .str "D1"), ("id", .str "AR")], [("units", .str "dbar")]]

def exSt : StationCtx :=
  { position := 0, latitude := 78, longitude := 34, lat_string := "78-0000",
    lon_string := "34-0000", min_pressure := 0, max_pressure := 10,
    time := "t", timestamp_string := "tZ", filename := "f.nc" }

/-- C8 witness: a two-station run over a concrete heap succeeds, and the
parent's `doi` entry reads back unchanged afterwards. -/
theorem C8_witness :
    (stationsHeapLoop ["TEMP"] [("TEMP", 1)] 0 "2026-02-03" [exSt, exSt]
      exHeap).isOk = true ∧
    ∀ h', stationsHeapLoop ["TEMP"] [("TEMP", 1)] 0 "2026-02-03" [exSt, exSt]
        exHeap = .ok h' →
      getAttr (readRef h' 0) "doi" = getAttr (readRef exHeap 0) "doi" := by
  refine ⟨by decide, fun h' hrun => ?_⟩
  exact (C8_parent_dicts_unchanged ["TEMP"] [("TEMP", 1)] 0 "2026-02-03"
    [exSt, exSt] exHeap h' hrun (by decide)).2.2.1

end CTD
